import Mathlib

/-!
Verification development for the rgb-multisig-bridge coordination daemon.

The Rust sources (`src/routes.rs`, `src/utils.rs`, `src/auth.rs`,
`src/database/mod.rs`) are shallowly embedded below: database tables become
lists of records, handlers become pure functions threading an explicit
`BridgeState`, machine integers become `Nat` with explicit `% 2^w` where
wrap-around is possible in the source, and fallible paths return an
`Outcome` that distinguishes API errors from Rust panics.
-/

namespace RgbBridge

/-- 2^32, the modulus for `u32` arithmetic. -/
def M32 : Nat := 4294967296

/-- `u32::MAX`, the bound used by `checked_add` in `bump_address_indices`. -/
def U32_MAX : Nat := 4294967295

/-- 32-bit modular addition. -/
def add32 (a b : Nat) : Nat := (a + b) % M32

/-- 32-bit right rotation (inputs are kept below 2^32). -/
def rotr32 (x n : Nat) : Nat := ((x >>> n) ||| (x <<< (32 - n))) % M32

/-- Bitwise complement within 32 bits (for values below 2^32). -/
def not32 (x : Nat) : Nat := U32_MAX - x

/-- SHA-256 big sigma-0. -/
def bigSigma0 (x : Nat) : Nat := rotr32 x 2 ^^^ rotr32 x 13 ^^^ rotr32 x 22

/-- SHA-256 big sigma-1. -/
def bigSigma1 (x : Nat) : Nat := rotr32 x 6 ^^^ rotr32 x 11 ^^^ rotr32 x 25

/-- SHA-256 small sigma-0. -/
def smallSigma0 (x : Nat) : Nat := rotr32 x 7 ^^^ rotr32 x 18 ^^^ (x >>> 3)

/-- SHA-256 small sigma-1. -/
def smallSigma1 (x : Nat) : Nat := rotr32 x 17 ^^^ rotr32 x 19 ^^^ (x >>> 10)

/-- SHA-256 choice function. -/
def chFn (e f g : Nat) : Nat := (e &&& f) ^^^ (not32 e &&& g)

/-- SHA-256 majority function. -/
def majFn (a b c : Nat) : Nat := (a &&& b) ^^^ (a &&& c) ^^^ (b &&& c)

/-- The 64 SHA-256 round constants. -/
def sha256K : List Nat :=
  [1116352408, 1899447441, 3049323471, 3921009573, 961987163,
   1508970993, 2453635748, 2870763221, 3624381080, 310598401,
   607225278, 1426881987, 1925078388, 2162078206, 2614888103,
   3248222580, 3835390401, 4022224774, 264347078, 604807628,
   770255983, 1249150122, 1555081692, 1996064986, 2554220882,
   2821834349, 2952996808, 3210313671, 3336571891, 3584528711,
   113926993, 338241895, 666307205, 773529912, 1294757372,
   1396182291, 1695183700, 1986661051, 2177026350, 2456956037,
   2730485921, 2820302411, 3259730800, 3345764771, 3516065817,
   3600352804, 4094571909, 275423344, 430227734, 506948616,
   659060556, 883997877, 958139571, 1322822218, 1537002063,
   1747873779, 1955562222, 2024104815, 2227730452, 2361852424,
   2428436474, 2756734187, 3204031479, 3329325298]

/-- The SHA-256 initial hash value. -/
def sha256H0 : List Nat :=
  [1779033703, 3144134277, 1013904242, 2773480762,
   1359893119, 2600822924, 528734635, 1541459225]

/-- SHA-256 message padding: append 0x80, zero bytes up to 56 mod 64, and the
bit length as a 64-bit big-endian integer. -/
def padMessage (msg : List Nat) : List Nat :=
  let len := msg.length
  let bitLen := len * 8
  let z := (64 + 55 - len % 64) % 64
  msg ++ [0x80] ++ List.replicate z 0 ++
    [bitLen / 2 ^ 56 % 256, bitLen / 2 ^ 48 % 256, bitLen / 2 ^ 40 % 256,
     bitLen / 2 ^ 32 % 256, bitLen / 2 ^ 24 % 256, bitLen / 2 ^ 16 % 256,
     bitLen / 2 ^ 8 % 256, bitLen % 256]

/-- Group bytes into big-endian 32-bit words. -/
def bytesToWords : List Nat → List Nat
  | a :: b :: c :: d :: rest =>
      (a * 2 ^ 24 + b * 2 ^ 16 + c * 2 ^ 8 + d) :: bytesToWords rest
  | _ => []

/-- Split a list into consecutive chunks of size `n`. -/
def chunkList (n : Nat) (l : List α) : List (List α) :=
  match l with
  | [] => []
  | x :: xs =>
      if h : n = 0 then []
      else (x :: xs).take n :: chunkList n ((x :: xs).drop n)
termination_by l.length
decreasing_by
  simp only [List.length_drop, List.length_cons]
  omega

/-- The next word of the SHA-256 message schedule. -/
def scheduleStep (w : List Nat) : Nat :=
  let n := w.length
  add32 (smallSigma1 (w.getD (n - 2) 0))
    (add32 (w.getD (n - 7) 0) (add32 (smallSigma0 (w.getD (n - 15) 0)) (w.getD (n - 16) 0)))

/-- Extend the message schedule by `k` words. -/
def extendSchedule : List Nat → Nat → List Nat
  | w, 0 => w
  | w, Nat.succ k => extendSchedule (w ++ [scheduleStep w]) k

/-- One SHA-256 compression round on the state `[a,b,c,d,e,f,g,h]`. -/
def compressRound (st : List Nat) (kw : Nat × Nat) : List Nat :=
  match st with
  | [a, b, c, d, e, f, g, h] =>
      let t1 := add32 h (add32 (bigSigma1 e) (add32 (chFn e f g) (add32 kw.1 kw.2)))
      let t2 := add32 (bigSigma0 a) (majFn a b c)
      [add32 t1 t2, a, b, c, add32 d t1, e, f, g]
  | other => other

/-- SHA-256 compression of a single 16-word block. -/
def compressBlock (h : List Nat) (block : List Nat) : List Nat :=
  let w := extendSchedule block 48
  let st := (sha256K.zip w).foldl compressRound h
  (h.zip st).map (fun p => add32 p.1 p.2)

/-- SHA-256 of a byte list, as 32 output bytes. -/
def sha256 (msg : List Nat) : List Nat :=
  let words := (chunkList 16 (bytesToWords (padMessage msg))).foldl compressBlock sha256H0
  words.flatMap (fun w => [w / 2 ^ 24 % 256, w / 2 ^ 16 % 256, w / 2 ^ 8 % 256, w % 256])

/-- The lowercase hexadecimal digits: codepoints 48-57 then 97-102. -/
def hexDigits : List Char :=
  (List.range 10).map (fun n => Char.ofNat (48 + n)) ++
    (List.range 6).map (fun n => Char.ofNat (97 + n))

/-- The lowercase hex character of a nibble. -/
def hexChar (n : Nat) : Char := hexDigits.getD n '0'

/-- Lowercase hex encoding of a byte list, as produced by `hex::encode`. -/
def hexEncode (bs : List Nat) : String :=
  String.mk (bs.flatMap (fun b => [hexChar (b / 16 % 16), hexChar (b % 16)]))

/-- Models the read loop of `compute_file_id` in `src/utils.rs`: bytes are
read from the file in chunks of at most 8192 and fed to the hasher, whose
absorbed input is accumulated in `absorbed`. -/
def readLoop (remaining absorbed : List Nat) : List Nat :=
  if h : remaining = [] then absorbed
  else readLoop (remaining.drop 8192) (absorbed ++ remaining.take 8192)
termination_by remaining.length
decreasing_by
  have hl : 0 < remaining.length := List.length_pos.mpr h
  simp only [List.length_drop]
  omega

/-- `compute_file_id` from `src/utils.rs`: streaming SHA-256 of the file
bytes in 8 KiB chunks, hex encoded. -/
def compute_file_id (bytes : List Nat) : String :=
  hexEncode (sha256 (readLoop bytes []))

/-- `hex_str_to_vec` nibble decoding, from the byte match in `src/utils.rs`:
ranges for ASCII `A`..`F`, `a`..`f` and `0`..`9`. -/
def hexNibble (c : Nat) : Option Nat :=
  if 65 ≤ c ∧ c ≤ 70 then some (c - 65 + 10)
  else if 97 ≤ c ∧ c ≤ 102 then some (c - 97 + 10)
  else if 48 ≤ c ∧ c ≤ 57 then some (c - 48)
  else none

/-- The loop of `hex_str_to_vec` in `src/utils.rs`: `b` is the `u8`
accumulator (shifted before each nibble), a byte is pushed at every odd
index. -/
def hexLoop : List Nat → Nat → Nat → List Nat → Option (List Nat)
  | [], _, _, out => some out
  | c :: rest, idx, b, out =>
      let b1 := (b <<< 4) % 256
      match hexNibble c with
      | none => none
      | some v =>
          let b2 := b1 ||| v
          if idx % 2 == 1 then hexLoop rest (idx + 1) 0 (out ++ [b2])
          else hexLoop rest (idx + 1) b2 out

/-- `hex_str_to_vec` from `src/utils.rs`, over the string's bytes. -/
def hex_str_to_vec (hex : List Nat) : Option (List Nat) :=
  hexLoop hex 0 0 []

/-- Reference pairwise hex decoding: consumes characters two at a time,
rejecting a trailing odd character. -/
def decodePairs : List Nat → Option (List Nat)
  | [] => some []
  | [_] => none
  | c1 :: c2 :: rest =>
      match hexNibble c1, hexNibble c2, decodePairs rest with
      | some v1, some v2, some bs => some ((v1 * 16 + v2) :: bs)
      | _, _, _ => none

/-- `OperationType` from `src/routes.rs`. -/
inductive OperationType
  | CreateUtxos
  | Issuance
  | SendRgb
  | SendBtc
  | Inflation
  | BlindReceive
  | WitnessReceive
  deriving DecidableEq

/-- `OperationStatus` from `src/routes.rs`. -/
inductive OperationStatus
  | Pending
  | Approved
  | Discarded
  deriving DecidableEq

/-- `FileType` from `src/routes.rs`. -/
inductive FileType
  | Consignment
  | Media
  | OperationData
  | Psbt
  deriving DecidableEq

/-- `APIError` from `src/error.rs` (the variants reachable from the embedded
handlers). -/
inductive APIError
  | CannotMarkOperationProcessed (msg : String)
  | CannotPostNewOperation (msg : String)
  | CannotRespondToOperation (msg : String)
  | FileNotFound
  | InvalidCount
  | InvalidOperationType (value : Nat)
  | InvalidRequest (msg : String)
  | OperationNotFound
  | Unexpected (msg : String)
  deriving DecidableEq

/-- Result of a handler: success, an `APIError` response, or a Rust panic
(`expect`, out-of-bounds indexing). -/
inductive Outcome (α : Type)
  | ok (a : α)
  | err (e : APIError)
  | crash (msg : String)
  deriving DecidableEq

/-- `TryFrom<u8> for OperationType` from `src/routes.rs`. -/
def OperationType.tryFrom (value : Nat) : Except APIError OperationType :=
  match value with
  | 1 => .ok .CreateUtxos
  | 2 => .ok .Issuance
  | 3 => .ok .SendRgb
  | 4 => .ok .SendBtc
  | 5 => .ok .Inflation
  | 6 => .ok .BlindReceive
  | 7 => .ok .WitnessReceive
  | _ => .error (.InvalidOperationType value)

/-- `AUTO_APPROVED_OPS` from `src/routes.rs`. -/
def AUTO_APPROVED_OPS : List OperationType :=
  [.Issuance, .BlindReceive, .WitnessReceive]

/-- `get_threshold_for_operation` from `src/utils.rs`. -/
def get_threshold_for_operation (op_type : OperationType)
    (threshold_vanilla threshold_colored : Nat) : Option Nat :=
  match op_type with
  | .CreateUtxos | .SendBtc => some threshold_vanilla
  | .SendRgb | .Inflation => some threshold_colored
  | .Issuance | .BlindReceive | .WitnessReceive => none

/-- A row of the `operation` table. -/
structure Operation where
  idx : Nat
  opType : OperationType
  status : OperationStatus
  created_at : Int
  initiator_idx : Nat
  deriving DecidableEq

/-- A row of the `op_file` table. -/
structure OpFile where
  idx : Nat
  file_id : String
  fileType : FileType
  operation_idx : Nat
  deriving DecidableEq

/-- A row of the `cosigner_op_status` table. -/
structure CosignerOpStatus where
  idx : Nat
  cosigner_idx : Nat
  operation_idx : Nat
  ack : Option Bool
  responded_at : Option Int
  processed_at : Option Int
  psbt_op_file_idx : Option Nat
  deriving DecidableEq

/-- The configuration slice of `AppState` from `src/startup.rs` used by the
handlers: the cosigner indices (the keys of `cosigners_by_idx`, equal in
number to `cosigners_by_xpub`) and the two thresholds (`u8` values). -/
structure AppState where
  cosigners : List Nat
  threshold_vanilla : Nat
  threshold_colored : Nat
  deriving DecidableEq

/-- The mutable state of the bridge: the database tables touched by the
handlers plus the content-addressed files directory (as the list of stored
file ids). `nextInternal`/`nextExternal` are the singleton
`next_address_index` row (`u32` values in the entity). -/
structure BridgeState where
  operations : List Operation
  statuses : List CosignerOpStatus
  opFiles : List OpFile
  nextInternal : Nat
  nextExternal : Nat
  diskFiles : List String
  deriving DecidableEq

/-- The database of a freshly started bridge: no operations, counters at 0. -/
def initialState : BridgeState :=
  { operations := []
    statuses := []
    opFiles := []
    nextInternal := 0
    nextExternal := 0
    diskFiles := [] }

/-- `AppDatabase::get_operation_by_idx`. -/
def getOperationByIdx (s : BridgeState) (idx : Nat) : Option Operation :=
  s.operations.find? (fun op => op.idx == idx)

/-- `AppDatabase::get_cosigner_op_status_entry`. -/
def getCosignerOpStatusEntry (s : BridgeState) (cosigner_idx operation_idx : Nat) :
    Option CosignerOpStatus :=
  s.statuses.find? (fun st => st.cosigner_idx == cosigner_idx &&
    st.operation_idx == operation_idx)

/-- `AppDatabase::get_last_cosigner_processed_op_idx`: the highest
`operation_idx` among the cosigner's rows with `processed_at` non-null, 0 if
there is none. -/
def getLastCosignerProcessedOpIdx (s : BridgeState) (cosigner_idx : Nat) : Nat :=
  (s.statuses.filter (fun st => st.cosigner_idx == cosigner_idx &&
    st.processed_at.isSome)).foldl (fun acc st => max acc st.operation_idx) 0

/-- `AppDatabase::has_pending_operation`. -/
def hasPendingOperation (s : BridgeState) : Bool :=
  s.operations.any (fun op => op.status == .Pending)

/-- `AppDatabase::has_unprocessed_operation`. -/
def hasUnprocessedOperation (s : BridgeState) (cosigner_idx : Nat) : Bool :=
  s.statuses.any (fun st => st.cosigner_idx == cosigner_idx &&
    st.processed_at.isNone)

/-- A sea-orm `update` of a `cosigner_op_status` row: replaces the rows whose
primary key equals the model's. -/
def updateStatusRow (rows : List CosignerOpStatus) (r : CosignerOpStatus) :
    List CosignerOpStatus :=
  rows.map (fun st => if st.idx == r.idx then r else st)

/-- A sea-orm `update` of an `operation` row's status by primary key. -/
def updateOperationStatus (ops : List Operation) (idx : Nat)
    (status : OperationStatus) : List Operation :=
  ops.map (fun op => if op.idx == idx then { op with status := status } else op)

/-- Storing one uploaded file: `compute_file_id`, persist it under
`<files_dir>/<file_id>` unless a file with that id already exists (dedup),
and insert the `op_file` row (auto-increment primary key). Returns the new
state and the inserted row's idx. -/
def storeFile (s : BridgeState) (bytes : List Nat) (fileType : FileType)
    (operation_idx : Nat) : BridgeState × Nat :=
  let file_id := compute_file_id bytes
  let disk := if s.diskFiles.contains file_id then s.diskFiles
    else s.diskFiles ++ [file_id]
  let fileIdx := s.opFiles.length + 1
  ({ s with
      diskFiles := disk
      opFiles := s.opFiles ++ [{ idx := fileIdx
                                 file_id := file_id
                                 fileType := fileType
                                 operation_idx := operation_idx }] }, fileIdx)

/-- Store the non-PSBT files of `post_operation` in upload order. -/
def storeFiles (s : BridgeState) (files : List (FileType × List Nat))
    (operation_idx : Nat) : BridgeState :=
  match files with
  | [] => s
  | (ft, bytes) :: rest => storeFiles (storeFile s bytes ft operation_idx).1 rest operation_idx

/-- The accumulator of `post_operation`'s multipart loop. -/
structure PostParseAcc where
  operation_type : Option OperationType
  files : List (FileType × List Nat)
  psbt_file : Option (List Nat)
  deriving DecidableEq

/-- Rust `str::starts_with`, modelled on the character list (the field
names involved are ASCII). -/
def strStartsWith (s pre : String) : Bool := pre.data.isPrefixOf s.data

/-- The Rust byte-slice `&field_name[5..]`, modelled on the character list
(the field names involved are ASCII). -/
def strDrop (s : String) (n : Nat) : String := String.mk (s.data.drop n)

/-- The `file_<kind>` suffix match in `post_operation`. -/
def parseFileKind (suffix : String) : Option FileType :=
  if suffix = "psbt" then some .Psbt
  else if suffix = "media" then some .Media
  else if suffix = "operation_data" then some .OperationData
  else if suffix = "consignment" then some .Consignment
  else none

/-- The multipart loop of `post_operation` (`src/routes.rs`). A field is a
(name, body bytes) pair. For `operation_type` the source indexes
`op_type[0]` without a length guard, which panics on an empty body; for
`file_<kind>` fields the body is streamed to a temp file and an empty body
is rejected, then a second PSBT is rejected. -/
def postParseFields : List (String × List Nat) → PostParseAcc → Outcome PostParseAcc
  | [], acc => .ok acc
  | (name, bytes) :: rest, acc =>
      if name == "operation_type" then
        match bytes.head? with
        | none => .crash "index out of bounds: the len is 0 but the index is 0"
        | some b =>
            match OperationType.tryFrom b with
            | .error e => .err e
            | .ok t => postParseFields rest { acc with operation_type := some t }
      else if strStartsWith name "file_" then
        match parseFileKind (strDrop name 5) with
        | none => .err (.InvalidRequest ("invalid file type " ++ name))
        | some ft =>
            if bytes.length == 0 then .err (.InvalidRequest ("empty file " ++ name))
            else if ft == FileType.Psbt then
              if acc.psbt_file.isSome then .err (.InvalidRequest "more than one PSBT provided")
              else postParseFields rest { acc with psbt_file := some bytes }
            else postParseFields rest { acc with files := acc.files ++ [(ft, bytes)] }
      else .err (.InvalidRequest ("unexpected field " ++ name))

/-- The cosigner-op-status insertion loop of `post_operation`: one row per
configured cosigner, the initiator's row pre-filled with its ACK and PSBT.
Each insert gets the auto-increment primary key `rows.length + 1`. -/
def insertStatusRows (nowTs : Int) (operation_idx initiator : Nat)
    (psbtIdx : Option Nat) : List CosignerOpStatus → List Nat → List CosignerOpStatus
  | rows, [] => rows
  | rows, k :: ks =>
      let (responded_at, ack, psbt_op_file_idx) :=
        if k == initiator then (some nowTs, some true, psbtIdx)
        else (none, none, none)
      insertStatusRows nowTs operation_idx initiator psbtIdx
        (rows ++ [{ idx := rows.length + 1
                    cosigner_idx := k
                    operation_idx := operation_idx
                    ack := ack
                    responded_at := responded_at
                    processed_at := none
                    psbt_op_file_idx := psbt_op_file_idx }]) ks

/-- The transaction of `post_operation` once all checks have passed: insert
the operation (auto-increment idx `operations.length + 1`), store the
files, store the PSBT, insert one cosigner-op-status row per cosigner. -/
def postTxn (cfg : AppState) (s : BridgeState) (cosigner_idx : Nat)
    (operation_type : OperationType) (files : List (FileType × List Nat))
    (psbt_file : Option (List Nat)) (nowTs : Int) : BridgeState × Nat :=
  let initial_status :=
    if AUTO_APPROVED_OPS.contains operation_type then OperationStatus.Approved
    else OperationStatus.Pending
  let operation_idx := s.operations.length + 1
  let s1 := { s with operations := s.operations ++
    [{ idx := operation_idx
       opType := operation_type
       status := initial_status
       created_at := nowTs
       initiator_idx := cosigner_idx }] }
  let s2 := storeFiles s1 files operation_idx
  let (s3, psbtIdx) :=
    match psbt_file with
    | some bytes =>
        let r := storeFile s2 bytes .Psbt operation_idx
        (r.1, some r.2)
    | none => (s2, none)
  let s4 := { s3 with statuses :=
    (insertStatusRows nowTs operation_idx cosigner_idx psbtIdx
      s3.statuses cfg.cosigners) }
  (s4, operation_idx)

/-- `post_operation` from `src/routes.rs` (state after commit, and the new
operation's idx). -/
def post_operation (cfg : AppState) (s : BridgeState) (cosigner_idx : Nat)
    (fields : List (String × List Nat)) (nowTs : Int) : Outcome (BridgeState × Nat) :=
  if hasPendingOperation s then
    .err (.CannotPostNewOperation "another operation is still pending")
  else if hasUnprocessedOperation s cosigner_idx then
    .err (.CannotPostNewOperation "initiator has unprocessed operations")
  else
    match postParseFields fields { operation_type := none, files := [], psbt_file := none } with
    | .crash m => .crash m
    | .err e => .err e
    | .ok acc =>
        if acc.files.isEmpty && acc.psbt_file.isNone then
          .err (.InvalidRequest "no files nor PSBT provided")
        else
          match acc.operation_type with
          | none => .err (.InvalidRequest "operation type not provided")
          | some operation_type =>
              .ok (postTxn cfg s cosigner_idx operation_type acc.files acc.psbt_file nowTs)

/-- `RespondToOperationRequest` from `src/routes.rs`. -/
structure RespondToOperationRequest where
  operation_idx : Nat
  ack : Bool
  deriving DecidableEq

/-- A part of the `respond_to_operation` multipart body: the `request` field
(with `none` modelling a JSON body serde rejects), a `file_psbt` field, or a
field with any other name. -/
inductive RespondPart
  | requestField (payload : Option RespondToOperationRequest)
  | psbtField (bytes : List Nat)
  | otherField (name : String)
  deriving DecidableEq

/-- The multipart loop of `respond_to_operation`: a second `file_psbt` is
rejected before streaming, an empty one after. -/
def respondParse : List RespondPart → Option RespondToOperationRequest →
    Option (List Nat) → Outcome (Option RespondToOperationRequest × Option (List Nat))
  | [], req, psbt => .ok (req, psbt)
  | .requestField payload :: rest, req, psbt =>
      match payload with
      | none => .err (.InvalidRequest "failed to parse JSON")
      | some p =>
          match req with
          | _ => respondParse rest (some p) psbt
  | .psbtField bytes :: rest, req, psbt =>
      if psbt.isSome then .err (.InvalidRequest "more than one PSBT provided")
      else if bytes.length == 0 then .err (.InvalidRequest "empty file")
      else respondParse rest req (some bytes)
  | .otherField name :: _, _, _ =>
      .err (.InvalidRequest ("unexpected field " ++ name))

/-- The ACK/NACK counting fold of `respond_to_operation`: the counters are
`u8`, so each increment wraps modulo 256 as in a release build. -/
def countAckNack (entries : List CosignerOpStatus) : Nat × Nat :=
  entries.foldl
    (fun p st =>
      match st.ack with
      | some true => ((p.1 + 1) % 256, p.2)
      | some false => (p.1, (p.2 + 1) % 256)
      | none => p)
    (0, 0)

/-- The committing tail of `respond_to_operation`'s transaction: store the
PSBT if provided, record the response on the responder's row, count ACKs
and NACKs, and update the operation status when a threshold is crossed.
The `total_cosigners` cast `len() as u8` and the `u8` subtraction
`total_cosigners - threshold` are modelled modulo 256. -/
def respondCommit (cfg : AppState) (s : BridgeState)
    (req : RespondToOperationRequest) (psbt? : Option (List Nat))
    (status_entry : CosignerOpStatus) (op : Operation) (nowTs : Int)
    (threshold : Nat) : BridgeState :=
  let (s1, psbtIdx) :=
    match psbt? with
    | some bytes =>
        let r := storeFile s bytes .Psbt op.idx
        (r.1, some r.2)
    | none => (s, none)
  let newEntry := { status_entry with
    ack := some req.ack
    responded_at := some nowTs
    psbt_op_file_idx :=
      (match psbtIdx with
       | some i => some i
       | none => status_entry.psbt_op_file_idx) }
  let s2 := { s1 with statuses := updateStatusRow s1.statuses newEntry }
  let entries := s2.statuses.filter (fun st => st.operation_idx == op.idx)
  let counts := countAckNack entries
  let total_cosigners := cfg.cosigners.length % 256
  let new_status : Option OperationStatus :=
    if threshold ≤ counts.1 then some .Approved
    else if (total_cosigners + 256 - threshold) % 256 < counts.2 then
      some .Discarded
    else none
  match new_status with
  | some st =>
      { s2 with operations := (updateOperationStatus s2.operations op.idx st) }
  | none => s2

/-- The transaction of `respond_to_operation` once all checks have passed;
the threshold `expect` for an auto-approved operation type is a panic. -/
def respondTxn (cfg : AppState) (s : BridgeState) (cosigner_idx : Nat)
    (req : RespondToOperationRequest) (psbt? : Option (List Nat))
    (status_entry : CosignerOpStatus) (op : Operation) (nowTs : Int) :
    Outcome BridgeState :=
  match get_threshold_for_operation op.opType
    cfg.threshold_vanilla cfg.threshold_colored with
  | none => .crash "threshold should be set for non-auto-approved operations"
  | some threshold =>
      .ok (respondCommit cfg s req psbt? status_entry op nowTs threshold)

/-- `respond_to_operation` from `src/routes.rs` (state after commit). -/
def respond_to_operation (cfg : AppState) (s : BridgeState) (cosigner_idx : Nat)
    (parts : List RespondPart) (nowTs : Int) : Outcome BridgeState :=
  match respondParse parts none none with
  | .crash m => .crash m
  | .err e => .err e
  | .ok (req?, psbt?) =>
      match req? with
      | none => .err (.InvalidRequest "missing request body")
      | some req =>
          if req.ack && psbt?.isNone then .err (.InvalidRequest "ACK requires PSBT file")
          else
            match getOperationByIdx s req.operation_idx with
            | none => .err .OperationNotFound
            | some op =>
                if op.initiator_idx == cosigner_idx then
                  .err (.CannotRespondToOperation "cannot respond to your own operation")
                else if op.status != .Pending then
                  .err (.CannotRespondToOperation "operation is not pending")
                else
                  match getCosignerOpStatusEntry s cosigner_idx req.operation_idx with
                  | none => .crash "CosignerOpStatus entry should exist"
                  | some status_entry =>
                      if status_entry.ack.isSome then
                        .err (.CannotRespondToOperation "already responded to this operation")
                      else if req.operation_idx !=
                          getLastCosignerProcessedOpIdx s cosigner_idx + 1 then
                        .err (.CannotRespondToOperation
                          "operation is not the next one to be processed")
                      else respondTxn cfg s cosigner_idx req psbt? status_entry op nowTs

/-- `mark_operation_processed` from `src/routes.rs`. -/
def mark_operation_processed (s : BridgeState) (cosigner_idx operation_idx : Nat)
    (nowTs : Int) : Outcome BridgeState :=
  match getOperationByIdx s operation_idx with
  | none => .err .OperationNotFound
  | some op =>
      if op.status == .Pending then
        .err (.CannotMarkOperationProcessed "a pending operation cannot be marked as processed")
      else
        match getCosignerOpStatusEntry s cosigner_idx operation_idx with
        | none => .err .OperationNotFound
        | some status =>
            if status.processed_at.isSome then
              .err (.CannotMarkOperationProcessed "already marked this operation as processed")
            else
              .ok { s with statuses :=
                (updateStatusRow s.statuses { status with processed_at := some nowTs }) }

/-- `bump_address_indices` from `src/routes.rs`: `count` is the request's
`u8`, the counter is the entity's `u32`, `checked_add` fails above
`u32::MAX`. -/
def bump_address_indices (s : BridgeState) (count : Nat) (internal : Bool) :
    Outcome (BridgeState × Nat) :=
  if count == 0 then .err .InvalidCount
  else
    let first := if internal then s.nextInternal else s.nextExternal
    if U32_MAX < first + count then .err (.Unexpected "address index overflow")
    else
      let s1 := if internal then { s with nextInternal := first + count }
        else { s with nextExternal := first + count }
      .ok (s1, first)

/-- `get_current_address_indices` from `src/routes.rs`: `counter - 1`, or
null when the counter is 0, for each of the two counters. -/
def get_current_address_indices (s : BridgeState) : Option Nat × Option Nat :=
  ((if s.nextInternal == 0 then none else some (s.nextInternal - 1)),
   (if s.nextExternal == 0 then none else some (s.nextExternal - 1)))

/-- One API-induced transition of the bridge database: a successful mutating
handler call by an authenticated cosigner. Read-only endpoints do not change
the state. -/
inductive Step (cfg : AppState) : BridgeState → BridgeState → Prop
  | post (cosigner_idx : Nat) (fields : List (String × List Nat)) (nowTs : Int)
      (s s' : BridgeState) (opIdx : Nat)
      (hc : cosigner_idx ∈ cfg.cosigners)
      (h : post_operation cfg s cosigner_idx fields nowTs = .ok (s', opIdx)) :
      Step cfg s s'
  | respond (cosigner_idx : Nat) (parts : List RespondPart) (nowTs : Int)
      (s s' : BridgeState)
      (hc : cosigner_idx ∈ cfg.cosigners)
      (h : respond_to_operation cfg s cosigner_idx parts nowTs = .ok s') :
      Step cfg s s'
  | mark (cosigner_idx operation_idx : Nat) (nowTs : Int) (s s' : BridgeState)
      (hc : cosigner_idx ∈ cfg.cosigners)
      (h : mark_operation_processed s cosigner_idx operation_idx nowTs = .ok s') :
      Step cfg s s'
  | bump (count : Nat) (internal : Bool) (s s' : BridgeState) (first : Nat)
      (h : bump_address_indices s count internal = .ok (s', first)) :
      Step cfg s s'

/-- The states reachable through the API from a freshly started bridge. -/
inductive Reachable (cfg : AppState) : BridgeState → Prop
  | init : Reachable cfg initialState
  | step {s s' : BridgeState} (hr : Reachable cfg s) (hs : Step cfg s s') :
      Reachable cfg s'

/-- `AuthError` from `src/error.rs`. -/
inductive AuthError
  | Unauthorized
  | Forbidden
  deriving DecidableEq

/-- `AuthenticatedUser` from `src/auth.rs` (`AuthenticatedCosigner` is
inlined as its xpub and idx). -/
inductive AuthenticatedUser
  | Cosigner (xpub : String) (idx : Nat)
  | WatchOnly
  deriving DecidableEq

/-- `WATCH_ONLY_ALLOWED_ROUTES` from `src/auth.rs`. -/
def WATCH_ONLY_ALLOWED_ROUTES : List String :=
  ["/info", "/getoperationbyidx", "/getcurrentaddressindices", "/getfile"]

/-- `is_watch_only_allowed` from `src/auth.rs`. -/
def is_watch_only_allowed (path : String) : Bool :=
  WATCH_ONLY_ALLOWED_ROUTES.contains path

/-- `cosigners_by_xpub` lookup (`HashMap::get`), as an association list. -/
def lookupXpub (m : List (String × Nat)) (x : String) : Option Nat :=
  (m.find? (fun p => p.1 == x)).map (fun p => p.2)

/-- Whether the principal is the watch-only one (the `matches!` test in
`conditional_auth_middleware`). -/
def AuthenticatedUser.isWatchOnly : AuthenticatedUser → Bool
  | .WatchOnly => true
  | .Cosigner _ _ => false

/-- The principal-resolution and route-gating tail of
`conditional_auth_middleware` in `src/auth.rs`, for a request whose bearer
token verified and is unexpired and whose `role`/`xpub` facts queried to
`role` and `xpub`. -/
def conditional_auth_middleware (cosigners_by_xpub : List (String × Nat))
    (role : String) (xpub : Option String) (path : String) :
    Except AuthError AuthenticatedUser :=
  let user? : Except AuthError AuthenticatedUser :=
    if role = "cosigner" then
      match xpub with
      | some x =>
          match lookupXpub cosigners_by_xpub x with
          | some idx => .ok (.Cosigner x idx)
          | none => .error .Unauthorized
      | none => .error .Unauthorized
    else if role = "watch-only" then
      match xpub with
      | none => .ok .WatchOnly
      | some _ => .error .Unauthorized
    else .error .Unauthorized
  match user? with
  | .error e => .error e
  | .ok user =>
      if user.isWatchOnly && !is_watch_only_allowed path then .error .Forbidden
      else .ok user

/-- `AppError::InvalidRootKey` from `src/error.rs` (the only variant
`check_auth_args` produces). -/
inductive AppError
  | InvalidRootKey
  deriving DecidableEq

/-- `check_auth_args` from `src/auth.rs`: hex-decode the root public key,
require 32 bytes, then `PublicKey::from_bytes`. The external Ed25519 key
validation is abstracted as the predicate `from_bytes_ok`. -/
def check_auth_args (from_bytes_ok : List Nat → Bool) (root_public_key : List Nat) :
    Except AppError (List Nat) :=
  match hex_str_to_vec root_public_key with
  | none => .error .InvalidRootKey
  | some key_bytes =>
      if key_bytes.length ≠ 32 then .error .InvalidRootKey
      else if from_bytes_ok key_bytes then .ok key_bytes
      else .error .InvalidRootKey

/-! ## File store: content addressing -/

theorem readLoop_eq (rem acc : List Nat) : readLoop rem acc = acc ++ rem := by
  by_cases h : rem = []
  · rw [readLoop, dif_pos h, h, List.append_nil]
  · rw [readLoop, dif_neg h, readLoop_eq (rem.drop 8192) (acc ++ rem.take 8192),
      List.append_assoc, List.take_append_drop]
termination_by rem.length
decreasing_by
  have hl : 0 < rem.length := List.length_pos.mpr h
  simp only [List.length_drop]
  omega

theorem compute_file_id_eq (bytes : List Nat) :
    compute_file_id bytes = hexEncode (sha256 bytes) := by
  rw [compute_file_id, readLoop_eq, List.nil_append]

theorem hexChar_mem (n : Nat) : hexChar n ∈ hexDigits := by
  by_cases h : n < hexDigits.length
  · rw [hexChar, List.getD_eq_getElem _ _ h]
    exact List.getElem_mem h
  · rw [hexChar, List.getD_eq_default _ _ (le_of_not_lt h)]
    decide

theorem hexEncode_lowercase (bs : List Nat) :
    ∀ ch ∈ (hexEncode bs).data, ch ∈ hexDigits := by
  intro ch hch
  simp only [hexEncode, String.data, List.mem_flatMap, List.mem_cons,
    List.not_mem_nil, or_false] at hch
  obtain ⟨b, -, hb⟩ := hch
  rcases hb with h | h
  · exact h ▸ hexChar_mem _
  · exact h ▸ hexChar_mem _

theorem storeFile_opFiles (s : BridgeState) (bytes : List Nat) (ft : FileType)
    (opIdx : Nat) :
    (storeFile s bytes ft opIdx).1.opFiles = s.opFiles ++
      [{ idx := s.opFiles.length + 1
         file_id := compute_file_id bytes
         fileType := ft
         operation_idx := opIdx }] ∧
    (storeFile s bytes ft opIdx).2 = s.opFiles.length + 1 ∧
    (storeFile s bytes ft opIdx).1.diskFiles =
      (if s.diskFiles.contains (compute_file_id bytes) then s.diskFiles
       else s.diskFiles ++ [compute_file_id bytes]) ∧
    (storeFile s bytes ft opIdx).1.operations = s.operations ∧
    (storeFile s bytes ft opIdx).1.statuses = s.statuses ∧
    (storeFile s bytes ft opIdx).1.nextInternal = s.nextInternal ∧
    (storeFile s bytes ft opIdx).1.nextExternal = s.nextExternal :=
  ⟨rfl, rfl, rfl, rfl, rfl, rfl, rfl⟩

/-- C9: every file stored through `post_operation` or
`respond_to_operation` goes through `storeFile`, whose `op_file` row's
`file_id` is the lowercase hex SHA-256 of the file's bytes; the 8 KiB
chunked streaming hash equals the hash of the whole byte sequence; and
storing byte-identical files twice yields two distinct `op_file` rows
sharing one `file_id` while the files directory gains the file only once,
the duplicate being discarded. -/
theorem c9_content_addressing :
    (∀ bytes : List Nat, compute_file_id bytes = hexEncode (sha256 bytes)) ∧
    (∀ bytes : List Nat, ∀ ch ∈ (compute_file_id bytes).data, ch ∈ hexDigits) ∧
    (∀ (s : BridgeState) (bytes : List Nat) (ft1 ft2 : FileType) (op1 op2 : Nat),
      compute_file_id bytes ∉ s.diskFiles →
      (storeFile (storeFile s bytes ft1 op1).1 bytes ft2 op2).1.opFiles =
        s.opFiles ++
          [{ idx := s.opFiles.length + 1
             file_id := compute_file_id bytes
             fileType := ft1
             operation_idx := op1 },
           { idx := s.opFiles.length + 2
             file_id := compute_file_id bytes
             fileType := ft2
             operation_idx := op2 }] ∧
      (storeFile s bytes ft1 op1).2 ≠
        (storeFile (storeFile s bytes ft1 op1).1 bytes ft2 op2).2 ∧
      (storeFile (storeFile s bytes ft1 op1).1 bytes ft2 op2).1.diskFiles =
        s.diskFiles ++ [compute_file_id bytes] ∧
      (storeFile (storeFile s bytes ft1 op1).1 bytes ft2 op2).1.diskFiles.count
        (compute_file_id bytes) = 1) := by
  refine ⟨fun bytes => compute_file_id_eq bytes,
    fun bytes ch hch => hexEncode_lowercase _ ch (by rwa [compute_file_id_eq] at hch), ?_⟩
  intro s bytes ft1 ft2 op1 op2 hnot
  obtain ⟨h1of, h1idx, h1disk, -, -, -, -⟩ := storeFile_opFiles s bytes ft1 op1
  obtain ⟨h2of, h2idx, h2disk, -, -, -, -⟩ :=
    storeFile_opFiles (storeFile s bytes ft1 op1).1 bytes ft2 op2
  have hc1 : s.diskFiles.contains (compute_file_id bytes) = false := by
    simp [hnot]
  rw [hc1, if_neg (by simp)] at h1disk
  have hc2 : (storeFile s bytes ft1 op1).1.diskFiles.contains (compute_file_id bytes) = true := by
    rw [h1disk]; simp
  rw [hc2, if_pos rfl, h1disk] at h2disk
  refine ⟨?_, ?_, h2disk, ?_⟩
  · rw [h2of, h1of]
    simp [List.append_assoc]
  · rw [h1idx, h2idx, h1of]
    simp
  · rw [h2disk, List.count_append]
    have h0 : s.diskFiles.count (compute_file_id bytes) = 0 :=
      List.count_eq_zero.mpr hnot
    simp [h0]

/-- C9 witness at the concrete byte sequence `[0]` from the empty files
directory. -/
theorem c9_content_addressing_witness :
    (compute_file_id [0] ∉ initialState.diskFiles) ∧
    (storeFile (storeFile initialState [0] .Psbt 1).1 [0] .Psbt 1).1.diskFiles.count
      (compute_file_id [0]) = 1 := by
  have h : compute_file_id [0] ∉ initialState.diskFiles := by
    simp [initialState]
  exact ⟨h, (c9_content_addressing.2.2 initialState [0] .Psbt .Psbt 1 1 h).2.2.2⟩

/-! ## Hex decoding -/

theorem hexNibble_lt {c v : Nat} (h : hexNibble c = some v) : v < 16 := by
  unfold hexNibble at h
  split_ifs at h <;> (injection h with h; omega)

theorem nibble_or : ∀ v1, v1 < 16 → ∀ v2, v2 < 16 →
    ((v1 <<< 4) % 256) ||| v2 = v1 * 16 + v2 := by decide

theorem hexLoop_spec (l : List Nat) (hhex : ∀ c ∈ l, (hexNibble c).isSome)
    (idx : Nat) (hidx : idx % 2 = 0) (out : List Nat) :
    ∃ bs, decodePairs (l.take (2 * (l.length / 2))) = some bs ∧
      hexLoop l idx 0 out = some (out ++ bs) := by
  match l with
  | [] => exact ⟨[], by rfl, by simp [hexLoop]⟩
  | [c] =>
      obtain ⟨v, hv⟩ := Option.isSome_iff_exists.mp (hhex c (by simp))
      refine ⟨[], by simp [decodePairs], ?_⟩
      have hodd : (idx % 2 == 1) = false := by simp [hidx]
      simp [hexLoop, hv, hodd]
  | c1 :: c2 :: rest =>
      obtain ⟨v1, hv1⟩ := Option.isSome_iff_exists.mp (hhex c1 (by simp))
      obtain ⟨v2, hv2⟩ := Option.isSome_iff_exists.mp (hhex c2 (by simp))
      have hidx2 : (idx + 1 + 1) % 2 = 0 := by omega
      obtain ⟨bs, hdec, hloop⟩ := hexLoop_spec rest
        (fun c hc => hhex c (by simp [hc])) (idx + 1 + 1) hidx2 (out ++ [v1 * 16 + v2])
      refine ⟨(v1 * 16 + v2) :: bs, ?_, ?_⟩
      · have h2 : 2 * ((c1 :: c2 :: rest).length / 2) =
            2 * (rest.length / 2) + 1 + 1 := by
          simp only [List.length_cons]
          omega
        rw [h2, List.take_succ_cons, List.take_succ_cons]
        unfold decodePairs
        rw [hv1, hv2, hdec]
      · have h1 : (idx % 2 == 1) = false := by simp [hidx]
        have h2 : ((idx + 1) % 2 == 1) = true := by
          simp only [beq_iff_eq]
          omega
        have hb2 : ((v1 <<< 4) % 256) ||| v2 = v1 * 16 + v2 :=
          nibble_or v1 (hexNibble_lt hv1) v2 (hexNibble_lt hv2)
        have hstepA : hexLoop (c1 :: c2 :: rest) idx 0 out =
            hexLoop (c2 :: rest) (idx + 1) v1 out := by
          rw [hexLoop]
          simp [hv1, h1]
        have hstepB : hexLoop (c2 :: rest) (idx + 1) v1 out =
            hexLoop rest (idx + 1 + 1) 0 (out ++ [v1 * 16 + v2]) := by
          rw [hexLoop]
          simp [hv2, h2, hb2]
        rw [hstepA, hstepB, hloop]
        simp
termination_by l.length

theorem decodePairs_length (l : List Nat) :
    ∀ bs, decodePairs l = some bs → l.length = 2 * bs.length := by
  match l with
  | [] =>
      intro bs h
      simp only [decodePairs, Option.some_inj] at h
      simp [← h]
  | [c] => intro bs h; simp [decodePairs] at h
  | c1 :: c2 :: rest =>
      intro bs h
      unfold decodePairs at h
      cases h1 : hexNibble c1 with
      | none => rw [h1] at h; cases h
      | some v1 =>
          cases h2 : hexNibble c2 with
          | none => rw [h1, h2] at h; cases h
          | some v2 =>
              cases h3 : decodePairs rest with
              | none => rw [h1, h2, h3] at h; cases h
              | some bs' =>
                  rw [h1, h2, h3] at h
                  injection h with h
                  have ih := decodePairs_length rest bs' h3
                  rw [← h]
                  simp only [List.length_cons, ih]
                  ring

/-- C10: `hex_str_to_vec` accepts an odd-length all-hex-digit byte string,
returning the bytes decoded from the first `length - 1` characters and
silently discarding the final character's nibble; consequently
`check_auth_args` accepts a 65-character hex string exactly when its first
64 characters decode to a 32-byte key the Ed25519 `from_bytes` accepts. -/
theorem c10_odd_hex_decoding (l : List Nat) (hodd : l.length % 2 = 1)
    (hhex : ∀ c ∈ l, (hexNibble c).isSome) :
    hex_str_to_vec l = decodePairs l.dropLast ∧
    (hex_str_to_vec l).isSome = true ∧
    ∀ from_bytes_ok : List Nat → Bool, l.length = 65 →
      ((∃ key, check_auth_args from_bytes_ok l = .ok key) ↔
        from_bytes_ok ((decodePairs l.dropLast).getD []) = true) := by
  obtain ⟨bs, hdec, hloop⟩ := hexLoop_spec l hhex 0 rfl []
  have htake : l.take (2 * (l.length / 2)) = l.dropLast := by
    rw [List.dropLast_eq_take]
    congr 1
    omega
  rw [htake] at hdec
  have h1 : hex_str_to_vec l = decodePairs l.dropLast := by
    rw [hex_str_to_vec, hloop, hdec, List.nil_append]
  refine ⟨h1, by rw [h1, hdec]; rfl, ?_⟩
  intro f h65
  have hlast : l.dropLast.length = 64 := by
    simp [List.length_dropLast, h65]
  have hbs : bs.length = 32 := by
    have := decodePairs_length l.dropLast bs hdec
    omega
  rw [hdec]
  simp only [Option.getD_some]
  unfold check_auth_args
  rw [h1, hdec]
  simp only [hbs]
  cases hf : f bs with
  | true => simp
  | false => simp

/-- C10 witness at the 65-character string of ASCII `0`, with a
`from_bytes` that accepts every 32-byte array. -/
theorem c10_odd_hex_decoding_witness :
    ((List.replicate 65 48).length % 2 = 1) ∧
    hex_str_to_vec (List.replicate 65 48) = decodePairs (List.replicate 65 48).dropLast ∧
    ((∃ key, check_auth_args (fun _ => true) (List.replicate 65 48) = .ok key) ↔
      (fun _ => true) ((decodePairs (List.replicate 65 48).dropLast).getD []) = true) := by
  have hodd : (List.replicate 65 48).length % 2 = 1 := by simp
  have hhex : ∀ c ∈ List.replicate 65 48, (hexNibble c).isSome := by
    intro c hc
    rw [List.eq_of_mem_replicate hc]
    decide
  obtain ⟨h1, -, h3⟩ := c10_odd_hex_decoding _ hodd hhex
  exact ⟨hodd, h1, h3 _ (by simp)⟩

/-! ## Address-index counters -/

theorem bump_spec (s : BridgeState) (count : Nat) (internal : Bool) :
    bump_address_indices s count internal =
      (if count = 0 then .err .InvalidCount
       else if U32_MAX < (if internal then s.nextInternal else s.nextExternal) + count then
         .err (.Unexpected "address index overflow")
       else .ok ((if internal then
           { s with nextInternal := s.nextInternal + count }
         else { s with nextExternal := s.nextExternal + count }),
         if internal then s.nextInternal else s.nextExternal)) := by
  unfold bump_address_indices
  cases internal <;> simp only [if_true, if_false, Bool.false_eq_true] <;>
    split_ifs with h1 h2 <;> simp_all

/-- C6: the address-index counters start at 0; a bump with count 0 fails
with InvalidCount and changes nothing (errors commit no state); a bump with
positive count returns the old counter as `first` and sets the counter to
`first + count`, failing with Unexpected("address index overflow") when the
`u32` addition overflows; `get_current` returns `counter - 1`, or null when
the counter is 0; bumping by `k1` then `k2` returns firsts 0 and `k1` and
leaves the current index at `k1 + k2 - 1`. -/
theorem c6_address_index_counters (s : BridgeState) (count k1 k2 : Nat)
    (internal : Bool) (hk1 : 0 < k1) (hk2 : 0 < k2) (hov : k1 + k2 ≤ U32_MAX)
    (hext : s.nextExternal = 0) :
    (bump_address_indices s 0 internal = .err .InvalidCount) ∧
    (0 < count →
      ((if internal then s.nextInternal else s.nextExternal) + count ≤ U32_MAX →
        bump_address_indices s count internal =
          .ok ((if internal then { s with nextInternal := s.nextInternal + count }
                else { s with nextExternal := s.nextExternal + count }),
            if internal then s.nextInternal else s.nextExternal)) ∧
      (U32_MAX < (if internal then s.nextInternal else s.nextExternal) + count →
        bump_address_indices s count internal =
          .err (.Unexpected "address index overflow"))) ∧
    (get_current_address_indices s =
      ((if s.nextInternal = 0 then none else some (s.nextInternal - 1)),
       (if s.nextExternal = 0 then none else some (s.nextExternal - 1)))) ∧
    (∃ s1 s2,
      bump_address_indices s k1 false = .ok (s1, 0) ∧
      bump_address_indices s1 k2 false = .ok (s2, k1) ∧
      (get_current_address_indices s2).2 = some (k1 + k2 - 1)) := by
  refine ⟨by rw [bump_spec]; simp, ?_, ?_, ?_⟩
  · intro hc
    constructor
    · intro hle
      rw [bump_spec, if_neg (by omega), if_neg (by omega)]
    · intro hgt
      rw [bump_spec, if_neg (by omega), if_pos hgt]
  · unfold get_current_address_indices
    cases hni : s.nextInternal <;> cases hne : s.nextExternal <;> simp
  · have e1 : bump_address_indices s k1 false = .ok ({ s with nextExternal := k1 }, 0) := by
      rw [bump_spec, if_neg (by omega)]
      simp only [Bool.false_eq_true, if_false, hext]
      rw [if_neg (by omega)]
      simp
    have e2 : bump_address_indices { s with nextExternal := k1 } k2 false =
        .ok ({ s with nextExternal := k1 + k2 }, k1) := by
      rw [bump_spec, if_neg (by omega)]
      simp only [Bool.false_eq_true, if_false]
      rw [if_neg (by simp; omega)]
    refine ⟨_, _, e1, e2, ?_⟩
    unfold get_current_address_indices
    simp only
    rw [if_neg (by simp; omega)]

/-- C6 witness: counters of a fresh bridge, count 0 and the 2-then-3
composition on the external counter. -/
theorem c6_address_index_counters_witness :
    (0 < 2 ∧ 0 < 3 ∧ 2 + 3 ≤ U32_MAX ∧ initialState.nextExternal = 0) ∧
    bump_address_indices initialState 0 false = .err .InvalidCount ∧
    (∃ s1 s2,
      bump_address_indices initialState 2 false = .ok (s1, 0) ∧
      bump_address_indices s1 3 false = .ok (s2, 2) ∧
      (get_current_address_indices s2).2 = some (2 + 3 - 1)) := by
  have h := c6_address_index_counters initialState 1 2 3 false (by decide) (by decide)
    (by decide) rfl
  exact ⟨⟨by decide, by decide, by decide, rfl⟩, h.1, h.2.2.2⟩

/-! ## Auth middleware -/

/-- C7: for a request with a validly signed, unexpired token, the
middleware produces a Cosigner principal only for role `cosigner` with a
configured xpub and a WatchOnly principal only for role `watch-only`
without xpub; every other combination is Unauthorized; a WatchOnly
principal off the read allow-list is Forbidden. -/
theorem c7_auth_principal (m : List (String × Nat)) (role : String)
    (xpub : Option String) (path : String) :
    (∀ u, conditional_auth_middleware m role xpub path = .ok u →
      (∃ x i, u = .Cosigner x i ∧ role = "cosigner" ∧ xpub = some x ∧
        lookupXpub m x = some i) ∨
      (u = .WatchOnly ∧ role = "watch-only" ∧ xpub = none ∧
        is_watch_only_allowed path = true)) ∧
    (∀ x i, role = "cosigner" → xpub = some x → lookupXpub m x = some i →
      conditional_auth_middleware m role xpub path = .ok (.Cosigner x i)) ∧
    (role = "cosigner" → xpub = none →
      conditional_auth_middleware m role xpub path = .error .Unauthorized) ∧
    (∀ x, role = "cosigner" → xpub = some x → lookupXpub m x = none →
      conditional_auth_middleware m role xpub path = .error .Unauthorized) ∧
    (role = "watch-only" → xpub ≠ none →
      conditional_auth_middleware m role xpub path = .error .Unauthorized) ∧
    (role ≠ "cosigner" → role ≠ "watch-only" →
      conditional_auth_middleware m role xpub path = .error .Unauthorized) ∧
    (role = "watch-only" → xpub = none → is_watch_only_allowed path = false →
      conditional_auth_middleware m role xpub path = .error .Forbidden) ∧
    (role = "watch-only" → xpub = none → is_watch_only_allowed path = true →
      conditional_auth_middleware m role xpub path = .ok .WatchOnly) := by
  refine ⟨?_, ?_, ?_, ?_, ?_, ?_, ?_, ?_⟩
  · intro u hu
    unfold conditional_auth_middleware at hu
    by_cases hr : role = "cosigner"
    · subst hr
      cases xpub with
      | none => simp at hu
      | some x =>
          cases hl : lookupXpub m x with
          | none => simp [hl] at hu
          | some i =>
              simp [hl, AuthenticatedUser.isWatchOnly] at hu
              exact Or.inl ⟨x, i, hu.symm, rfl, rfl, hl⟩
    · by_cases hw : role = "watch-only"
      · subst hw
        cases xpub with
        | some x => simp at hu
        | none =>
            cases hal : is_watch_only_allowed path with
            | false => simp [AuthenticatedUser.isWatchOnly, hal] at hu
            | true =>
                simp [AuthenticatedUser.isWatchOnly, hal] at hu
                exact Or.inr ⟨hu.symm, rfl, rfl, rfl⟩
      · simp [hr, hw] at hu
  · intro x i hr hx hl
    subst hr
    subst hx
    unfold conditional_auth_middleware
    simp [hl, AuthenticatedUser.isWatchOnly]
  · intro hr hx
    subst hr
    subst hx
    unfold conditional_auth_middleware
    simp
  · intro x hr hx hl
    subst hr
    subst hx
    unfold conditional_auth_middleware
    simp [hl]
  · intro hw hx
    cases xpub with
    | none => exact absurd rfl hx
    | some x =>
        subst hw
        unfold conditional_auth_middleware
        simp
  · intro hr hw
    unfold conditional_auth_middleware
    cases xpub <;> simp [hr, hw]
  · intro hw hx ha
    subst hw
    subst hx
    unfold conditional_auth_middleware
    simp [AuthenticatedUser.isWatchOnly, ha]
  · intro hw hx ha
    subst hw
    subst hx
    unfold conditional_auth_middleware
    simp [AuthenticatedUser.isWatchOnly, ha]

/-- C7 witness at a one-cosigner map, exercising the known-cosigner, the
watch-only allowed path, and the watch-only forbidden path cases. -/
theorem c7_auth_principal_witness :
    conditional_auth_middleware [("xpubA", 7)] "cosigner" (some "xpubA") "/postoperation" =
      .ok (.Cosigner "xpubA" 7) ∧
    conditional_auth_middleware [("xpubA", 7)] "cosigner" (some "xpubB") "/info" =
      .error .Unauthorized ∧
    conditional_auth_middleware [("xpubA", 7)] "cosigner" none "/info" =
      .error .Unauthorized ∧
    conditional_auth_middleware [("xpubA", 7)] "watch-only" (some "xpubA") "/info" =
      .error .Unauthorized ∧
    conditional_auth_middleware [("xpubA", 7)] "admin" none "/info" =
      .error .Unauthorized ∧
    conditional_auth_middleware [("xpubA", 7)] "watch-only" none "/postoperation" =
      .error .Forbidden ∧
    conditional_auth_middleware [("xpubA", 7)] "watch-only" none "/info" =
      .ok .WatchOnly := by
  have h1 := c7_auth_principal [("xpubA", 7)] "cosigner" (some "xpubA") "/postoperation"
  have h2 := c7_auth_principal [("xpubA", 7)] "cosigner" (some "xpubB") "/info"
  have h3 := c7_auth_principal [("xpubA", 7)] "cosigner" none "/info"
  have h4 := c7_auth_principal [("xpubA", 7)] "watch-only" (some "xpubA") "/info"
  have h5 := c7_auth_principal [("xpubA", 7)] "admin" none "/info"
  have h6 := c7_auth_principal [("xpubA", 7)] "watch-only" none "/postoperation"
  have h7 := c7_auth_principal [("xpubA", 7)] "watch-only" none "/info"
  refine ⟨h1.2.1 "xpubA" 7 rfl rfl (by decide), h2.2.2.2.1 "xpubB" rfl rfl (by decide),
    h3.2.2.1 rfl rfl, h4.2.2.2.2.1 rfl (by simp), h5.2.2.2.2.2.1 (by decide) (by decide),
    h6.2.2.2.2.2.2.1 rfl rfl (by decide), h7.2.2.2.2.2.2.2 rfl rfl (by decide)⟩

/-! ## Multipart field handling in post_operation -/

/-- C8: an empty `file_<kind>` field body is rejected with InvalidRequest,
but an empty `operation_type` field body makes the handler index
`op_type[0]` out of bounds and panic instead of returning InvalidRequest:
the code contradicts the intended empty-body validation. -/
theorem c8_empty_field_behavior :
    post_operation { cosigners := [1, 2], threshold_vanilla := 1, threshold_colored := 1 }
      initialState 1 [("operation_type", [])] 0 =
      .crash "index out of bounds: the len is 0 but the index is 0" ∧
    post_operation { cosigners := [1, 2], threshold_vanilla := 1, threshold_colored := 1 }
      initialState 1 [("operation_type", [3]), ("file_psbt", [])] 0 =
      .err (.InvalidRequest "empty file file_psbt") ∧
    post_operation { cosigners := [1, 2], threshold_vanilla := 1, threshold_colored := 1 }
      initialState 1 [("operation_type", [3]), ("file_media", [])] 0 =
      .err (.InvalidRequest "empty file file_media") := by
  refine ⟨?_, ?_, ?_⟩ <;> decide

/-! ## Responding to operations -/

theorem respondTxn_ne_err (cfg : AppState) (s : BridgeState) (c : Nat)
    (req : RespondToOperationRequest) (psbt? : Option (List Nat))
    (entry : CosignerOpStatus) (op : Operation) (t : Int) (e : APIError) :
    respondTxn cfg s c req psbt? entry op t ≠ .err e := by
  unfold respondTxn
  cases h : get_threshold_for_operation op.opType cfg.threshold_vanilla
      cfg.threshold_colored with
  | none => simp [h]
  | some T => simp [h]

/-- C2: under the earlier preconditions (request parsed, ACK carries a
PSBT, the operation exists, is Pending, was not initiated by the caller,
and the caller has not responded yet), `respond_to_operation` fails with
CannotRespondToOperation("operation is not the next one to be processed")
exactly when the target index differs from the caller's last processed
operation index plus one (0 if the caller has processed nothing). -/
theorem c2_sequential_processing (cfg : AppState) (s : BridgeState) (c : Nat)
    (parts : List RespondPart) (t : Int) (req : RespondToOperationRequest)
    (psbt? : Option (List Nat)) (op : Operation) (entry : CosignerOpStatus)
    (hparse : respondParse parts none none = .ok (some req, psbt?))
    (hpsbt : req.ack = true → psbt?.isSome)
    (hop : getOperationByIdx s req.operation_idx = some op)
    (hinit : op.initiator_idx ≠ c)
    (hpend : op.status = .Pending)
    (hentry : getCosignerOpStatusEntry s c req.operation_idx = some entry)
    (hack : entry.ack = none) :
    respond_to_operation cfg s c parts t =
      .err (.CannotRespondToOperation "operation is not the next one to be processed") ↔
      req.operation_idx ≠ getLastCosignerProcessedOpIdx s c + 1 := by
  have hackpsbt : (req.ack && psbt?.isNone) = false := by
    cases hra : req.ack with
    | false => rfl
    | true =>
        have hs := hpsbt hra
        cases psbt? with
        | none => simp at hs
        | some b => rfl
  have hbinit : (op.initiator_idx == c) = false := by
    simp [hinit]
  have hbpend : (op.status != OperationStatus.Pending) = false := by
    simp [hpend]
  have hbsome : entry.ack.isSome = false := by
    simp [hack]
  unfold respond_to_operation
  rw [hparse]
  simp only [hackpsbt, Bool.false_eq_true, if_false, hop, hbinit, hbpend,
    hentry, hbsome]
  by_cases hseq : req.operation_idx = getLastCosignerProcessedOpIdx s c + 1
  · have hb : (req.operation_idx != getLastCosignerProcessedOpIdx s c + 1) = false := by
      simp [hseq]
    rw [hb]
    simp only [Bool.false_eq_true, if_false]
    constructor
    · intro h
      exact absurd h (respondTxn_ne_err cfg s c req psbt? entry op t _)
    · intro h
      exact absurd hseq h
  · have hb : (req.operation_idx != getLastCosignerProcessedOpIdx s c + 1) = true := by
      simp [hseq]
    rw [hb]
    simp [hseq]

/-- C2 witness: a bridge with an Approved operation 1 and a Pending
operation 2, where cosigner 2 (no processed operations, so
last_processed = 0) targets operation 2 instead of 1. -/
theorem c2_sequential_processing_witness :
    respond_to_operation { cosigners := [1, 2], threshold_vanilla := 1, threshold_colored := 1 }
      { operations := [{ idx := 1, opType := .SendBtc, status := .Approved, created_at := 0,
                         initiator_idx := 1 },
                       { idx := 2, opType := .SendBtc, status := .Pending, created_at := 0,
                         initiator_idx := 1 }]
        statuses := [{ idx := 1, cosigner_idx := 1, operation_idx := 1, ack := some true,
                       responded_at := some 0, processed_at := none, psbt_op_file_idx := none },
                     { idx := 2, cosigner_idx := 2, operation_idx := 1, ack := none,
                       responded_at := none, processed_at := none, psbt_op_file_idx := none },
                     { idx := 3, cosigner_idx := 1, operation_idx := 2, ack := some true,
                       responded_at := some 0, processed_at := none, psbt_op_file_idx := none },
                     { idx := 4, cosigner_idx := 2, operation_idx := 2, ack := none,
                       responded_at := none, processed_at := none, psbt_op_file_idx := none }]
        opFiles := []
        nextInternal := 0
        nextExternal := 0
        diskFiles := [] }
      2 [.requestField (some { operation_idx := 2, ack := false })] 0 =
      .err (.CannotRespondToOperation "operation is not the next one to be processed") := by
  rw [c2_sequential_processing _ _ 2 _ 0 { operation_idx := 2, ack := false } none
    { idx := 2, opType := .SendBtc, status := .Pending, created_at := 0, initiator_idx := 1 }
    { idx := 4, cosigner_idx := 2, operation_idx := 2, ack := none,
      responded_at := none, processed_at := none, psbt_op_file_idx := none }
    (by decide) (by decide) (by decide) (by decide) (by decide) (by decide) (by decide)]
  decide

/-- Inversion of a successful `respond_to_operation`: all preconditions
must have passed and the result is the committed transaction. -/
theorem respond_ok_inversion (cfg : AppState) (s : BridgeState) (c : Nat)
    (parts : List RespondPart) (t : Int) (s' : BridgeState)
    (hok : respond_to_operation cfg s c parts t = .ok s') :
    ∃ req psbt? op entry,
      respondParse parts none none = .ok (some req, psbt?) ∧
      (req.ack && psbt?.isNone) = false ∧
      getOperationByIdx s req.operation_idx = some op ∧
      (op.initiator_idx == c) = false ∧
      op.status = .Pending ∧
      getCosignerOpStatusEntry s c req.operation_idx = some entry ∧
      entry.ack = none ∧
      req.operation_idx = getLastCosignerProcessedOpIdx s c + 1 ∧
      respondTxn cfg s c req psbt? entry op t = .ok s' := by
  unfold respond_to_operation at hok
  cases hparse : respondParse parts none none with
  | crash m => rw [hparse] at hok; cases hok
  | err e => rw [hparse] at hok; cases hok
  | ok pr =>
      obtain ⟨req?, psbt?⟩ := pr
      rw [hparse] at hok
      cases req? with
      | none => simp at hok
      | some req =>
          simp only at hok
          cases hcond : (req.ack && psbt?.isNone) with
          | true => rw [hcond] at hok; simp at hok
          | false =>
              rw [hcond] at hok
              simp only [Bool.false_eq_true, if_false] at hok
              cases hop : getOperationByIdx s req.operation_idx with
              | none => rw [hop] at hok; simp at hok
              | some op =>
                  rw [hop] at hok
                  simp only at hok
                  cases hbinit : (op.initiator_idx == c) with
                  | true => rw [hbinit] at hok; simp at hok
                  | false =>
                      rw [hbinit] at hok
                      simp only [Bool.false_eq_true, if_false] at hok
                      cases hbpend : (op.status != OperationStatus.Pending) with
                      | true => rw [hbpend] at hok; simp at hok
                      | false =>
                          rw [hbpend] at hok
                          simp only [Bool.false_eq_true, if_false] at hok
                          cases hentry : getCosignerOpStatusEntry s c req.operation_idx with
                          | none => rw [hentry] at hok; cases hok
                          | some entry =>
                              rw [hentry] at hok
                              simp only at hok
                              cases hbsome : entry.ack.isSome with
                              | true => rw [hbsome] at hok; simp at hok
                              | false =>
                                  rw [hbsome] at hok
                                  simp only [Bool.false_eq_true, if_false] at hok
                                  cases hbseq : (req.operation_idx !=
                                      getLastCosignerProcessedOpIdx s c + 1) with
                                  | true => rw [hbseq] at hok; simp at hok
                                  | false =>
                                      rw [hbseq] at hok
                                      simp only [Bool.false_eq_true, if_false] at hok
                                      refine ⟨req, psbt?, op, entry, rfl, hcond, hop,
                                        hbinit, ?_, hentry, ?_, ?_, hok⟩
                                      · exact bne_eq_false_iff_eq.mp hbpend
                                      · exact Option.not_isSome_iff_eq_none.mp
                                          (by rw [hbsome]; exact Bool.false_ne_true)
                                      · exact bne_eq_false_iff_eq.mp hbseq

/-- The responder's updated row as committed by `respondCommit`. -/
def respondEntry (entry : CosignerOpStatus) (req : RespondToOperationRequest)
    (psbt? : Option (List Nat)) (s : BridgeState) (t : Int) : CosignerOpStatus :=
  { entry with
    ack := some req.ack
    responded_at := some t
    psbt_op_file_idx :=
      (match psbt? with
       | some _ => some (s.opFiles.length + 1)
       | none => entry.psbt_op_file_idx) }

theorem respondCommit_statuses (cfg : AppState) (s : BridgeState)
    (req : RespondToOperationRequest) (psbt? : Option (List Nat))
    (entry : CosignerOpStatus) (op : Operation) (t : Int) (T : Nat) :
    (respondCommit cfg s req psbt? entry op t T).statuses =
      updateStatusRow s.statuses (respondEntry entry req psbt? s t) := by
  unfold respondCommit respondEntry
  cases psbt? <;> (simp only [storeFile]; split <;> rfl)

theorem respondCommit_opFiles (cfg : AppState) (s : BridgeState)
    (req : RespondToOperationRequest) (psbt? : Option (List Nat))
    (entry : CosignerOpStatus) (op : Operation) (t : Int) (T : Nat) :
    (respondCommit cfg s req psbt? entry op t T).opFiles =
      (match psbt? with
       | some bytes => s.opFiles ++
           [{ idx := s.opFiles.length + 1
              file_id := compute_file_id bytes
              fileType := .Psbt
              operation_idx := op.idx }]
       | none => s.opFiles) := by
  unfold respondCommit
  cases psbt? <;> (simp only [storeFile]; split <;> rfl)

theorem respondCommit_operations (cfg : AppState) (s : BridgeState)
    (req : RespondToOperationRequest) (psbt? : Option (List Nat))
    (entry : CosignerOpStatus) (op : Operation) (t : Int) (T : Nat) :
    (respondCommit cfg s req psbt? entry op t T).operations =
      (let counts := countAckNack
        (((respondCommit cfg s req psbt? entry op t T).statuses).filter
          (fun st => st.operation_idx == op.idx))
       if T ≤ counts.1 then updateOperationStatus s.operations op.idx .Approved
       else if (cfg.cosigners.length % 256 + 256 - T) % 256 < counts.2 then
         updateOperationStatus s.operations op.idx .Discarded
       else s.operations) := by
  rw [respondCommit_statuses]
  unfold respondCommit
  cases psbt? <;>
    (simp only [storeFile, respondEntry]
     split
     case _ st heq =>
       split_ifs at heq with hA hB
       · injection heq with heq
         subst heq
         rw [if_pos hA]
       · injection heq with heq
         subst heq
         rw [if_neg hA, if_pos hB]
     case _ heq =>
       split_ifs at heq with hA hB
       rw [if_neg hA, if_neg hB])

theorem find?_updateOperationStatus (ops : List Operation) (i : Nat)
    (st : OperationStatus) :
    (updateOperationStatus ops i st).find? (fun op => op.idx == i) =
      (ops.find? (fun op => op.idx == i)).map (fun op => { op with status := st }) := by
  induction ops with
  | nil => rfl
  | cons o rest ih =>
      simp only [updateOperationStatus, List.map_cons] at *
      by_cases h : (o.idx == i) = true
      · simp only [if_pos h, List.find?]
        simp [h]
      · have hb : (o.idx == i) = false := by simpa using h
        rw [if_neg h]
        simp only [List.find?, hb]
        exact ih

theorem find?_updateStatusRow (rows : List CosignerOpStatus)
    (entry r : CosignerOpStatus) (p : CosignerOpStatus → Bool)
    (hfind : rows.find? p = some entry) (hidx : r.idx = entry.idx)
    (hpr : p r = true) :
    (updateStatusRow rows r).find? p = some r := by
  induction rows with
  | nil => cases hfind
  | cons st rest ih =>
      simp only [updateStatusRow, List.map_cons] at *
      by_cases hp : p st = true
      · rw [List.find?_cons_of_pos _ hp] at hfind
        injection hfind with hfind
        have hbeq : (st.idx == r.idx) = true := by
          rw [hidx, ← hfind]
          exact beq_self_eq_true _
        rw [if_pos hbeq, List.find?_cons_of_pos _ hpr]
      · rw [List.find?_cons_of_neg _ (by simpa using hp)] at hfind
        by_cases hb : (st.idx == r.idx) = true
        · rw [if_pos hb, List.find?_cons_of_pos _ hpr]
        · rw [if_neg hb, List.find?_cons_of_neg _ (by simpa using hp)]
          exact ih hfind

/-- ACK rows of an operation (plain count, no `u8` wrap). -/
def ackCountFor (s : BridgeState) (opIdx : Nat) : Nat :=
  (s.statuses.filter (fun st => st.operation_idx == opIdx &&
    st.ack == some true)).length

/-- NACK rows of an operation (plain count, no `u8` wrap). -/
def nackCountFor (s : BridgeState) (opIdx : Nat) : Nat :=
  (s.statuses.filter (fun st => st.operation_idx == opIdx &&
    st.ack == some false)).length

theorem countAckNack_fold (entries : List CosignerOpStatus) :
    ∀ a b : Nat,
      a + entries.countP (fun st => st.ack == some true) ≤ 255 →
      b + entries.countP (fun st => st.ack == some false) ≤ 255 →
      entries.foldl
        (fun p st =>
          match st.ack with
          | some true => ((p.1 + 1) % 256, p.2)
          | some false => (p.1, (p.2 + 1) % 256)
          | none => p)
        (a, b) =
      (a + entries.countP (fun st => st.ack == some true),
       b + entries.countP (fun st => st.ack == some false)) := by
  induction entries with
  | nil => intro a b _ _; simp
  | cons st rest ih =>
      intro a b hA hB
      cases hst : st.ack with
      | none =>
          have hA' : a + rest.countP (fun st => st.ack == some true) ≤ 255 := by
            simp [List.countP_cons, hst] at hA
            omega
          have hB' : b + rest.countP (fun st => st.ack == some false) ≤ 255 := by
            simp [List.countP_cons, hst] at hB
            omega
          rw [List.foldl_cons]
          simp only [hst]
          rw [ih a b hA' hB']
          simp [List.countP_cons, hst]
      | some v =>
          cases v with
          | true =>
              have hA' : (a + 1) + rest.countP (fun st => st.ack == some true) ≤ 255 := by
                simp [List.countP_cons, hst] at hA
                omega
              have hB' : b + rest.countP (fun st => st.ack == some false) ≤ 255 := by
                simp [List.countP_cons, hst] at hB
                omega
              rw [List.foldl_cons]
              simp only [hst]
              have ha1 : (a + 1) % 256 = a + 1 := Nat.mod_eq_of_lt (by omega)
              rw [ha1, ih (a + 1) b hA' hB']
              simp only [List.countP_cons, hst, Prod.mk.injEq]
              constructor <;> simp <;> omega
          | false =>
              have hA' : a + rest.countP (fun st => st.ack == some true) ≤ 255 := by
                simp [List.countP_cons, hst] at hA
                omega
              have hB' : (b + 1) + rest.countP (fun st => st.ack == some false) ≤ 255 := by
                simp [List.countP_cons, hst] at hB
                omega
              rw [List.foldl_cons]
              simp only [hst]
              have hb1 : (b + 1) % 256 = b + 1 := Nat.mod_eq_of_lt (by omega)
              rw [hb1, ih a (b + 1) hA' hB']
              simp only [List.countP_cons, hst, Prod.mk.injEq]
              constructor <;> simp <;> omega

theorem countAckNack_eq (entries : List CosignerOpStatus)
    (h : entries.length ≤ 255) :
    countAckNack entries =
      (entries.countP (fun st => st.ack == some true),
       entries.countP (fun st => st.ack == some false)) := by
  unfold countAckNack
  have h1 := List.countP_le_length (l := entries)
    (p := fun st => st.ack == some true)
  have h2 := List.countP_le_length (l := entries)
    (p := fun st => st.ack == some false)
  have := countAckNack_fold entries 0 0 (by omega) (by omega)
  simpa using this

theorem length_filter_and (l : List CosignerOpStatus)
    (p q : CosignerOpStatus → Bool) :
    (l.filter (fun st => p st && q st)).length = List.countP q (l.filter p) := by
  induction l with
  | nil => rfl
  | cons st rest ih =>
      by_cases hp : p st = true <;> by_cases hq : q st = true <;>
        simp [List.filter_cons, List.countP_cons, hp, hq, ih]

theorem updateStatusRow_length (rows : List CosignerOpStatus)
    (r : CosignerOpStatus) : (updateStatusRow rows r).length = rows.length := by
  simp [updateStatusRow]

/-- C1: after a successful `respond_to_operation` on a Pending operation
whose type has threshold `T`, with `N` configured cosigners (validated
configuration: `T ≤ N ≤ 255`, row count within `u8` range), the stored
status equals: Approved when the ACK rows reach `T`, else Discarded when
the NACK rows strictly exceed `N - T`, else still Pending; approval is
decided first, so an ACK count equal to `T` yields Approved. -/
theorem c1_threshold_status (cfg : AppState) (s : BridgeState) (c : Nat)
    (parts : List RespondPart) (t : Int) (s' : BridgeState)
    (req : RespondToOperationRequest) (psbt? : Option (List Nat))
    (op : Operation) (T : Nat)
    (hok : respond_to_operation cfg s c parts t = .ok s')
    (hparse : respondParse parts none none = .ok (some req, psbt?))
    (hop : getOperationByIdx s req.operation_idx = some op)
    (hthr : get_threshold_for_operation op.opType cfg.threshold_vanilla
      cfg.threshold_colored = some T)
    (hTN : T ≤ cfg.cosigners.length)
    (hN : cfg.cosigners.length ≤ 255)
    (hrows : s.statuses.length ≤ 255) :
    (getOperationByIdx s' req.operation_idx).map Operation.status =
      some (if T ≤ ackCountFor s' req.operation_idx then .Approved
        else if cfg.cosigners.length - T < nackCountFor s' req.operation_idx then
          .Discarded
        else .Pending) := by
  obtain ⟨req', psbt?', op', entry, hparse', hcond, hop', hbinit, hpend, hentry,
    hackn, hseq, htxn⟩ := respond_ok_inversion cfg s c parts t s' hok
  rw [hparse] at hparse'
  simp only [Outcome.ok.injEq, Prod.mk.injEq, Option.some.injEq] at hparse'
  obtain ⟨hreqe, hpsbte⟩ := hparse'
  subst hreqe
  subst hpsbte
  rw [hop] at hop'
  injection hop' with hop'
  subst hop'
  unfold respondTxn at htxn
  rw [hthr] at htxn
  simp only [Outcome.ok.injEq] at htxn
  subst htxn
  have hidx : op.idx = req.operation_idx := by
    have := List.find?_some hop
    simpa using this
  have hsts := respondCommit_statuses cfg s req psbt? entry op t T
  have hlen : ((respondCommit cfg s req psbt? entry op t T).statuses).length =
      s.statuses.length := by
    rw [hsts, updateStatusRow_length]
  set s2 := respondCommit cfg s req psbt? entry op t T with hs2
  have hentlen : (s2.statuses.filter (fun st => st.operation_idx == op.idx)).length ≤ 255 := by
    calc (s2.statuses.filter (fun st => st.operation_idx == op.idx)).length
        ≤ s2.statuses.length := List.length_filter_le _ _
      _ = s.statuses.length := hlen
      _ ≤ 255 := hrows
  have hcnt := countAckNack_eq _ hentlen
  have hackeq : (s2.statuses.filter (fun st => st.operation_idx == op.idx)).countP
      (fun st => st.ack == some true) = ackCountFor s2 req.operation_idx := by
    rw [ackCountFor, ← hidx, length_filter_and]
  have hnackeq : (s2.statuses.filter (fun st => st.operation_idx == op.idx)).countP
      (fun st => st.ack == some false) = nackCountFor s2 req.operation_idx := by
    rw [nackCountFor, ← hidx, length_filter_and]
  have hmod : (cfg.cosigners.length % 256 + 256 - T) % 256 =
      cfg.cosigners.length - T := by
    omega
  have hops := respondCommit_operations cfg s req psbt? entry op t T
  rw [hcnt] at hops
  simp only at hops
  rw [hackeq, hnackeq, hmod] at hops
  unfold getOperationByIdx
  rw [show s2.operations = (respondCommit cfg s req psbt? entry op t T).operations from rfl,
    hops]
  by_cases hA : T ≤ ackCountFor s2 req.operation_idx
  · rw [if_pos hA, if_pos hA, hidx, find?_updateOperationStatus]
    unfold getOperationByIdx at hop
    rw [hop]
    rfl
  · rw [if_neg hA, if_neg hA]
    by_cases hB : cfg.cosigners.length - T < nackCountFor s2 req.operation_idx
    · rw [if_pos hB, if_pos hB, hidx, find?_updateOperationStatus]
      unfold getOperationByIdx at hop
      rw [hop]
      rfl
    · rw [if_neg hB, if_neg hB]
      unfold getOperationByIdx at hop
      rw [hop]
      simp [hpend]

/-- A two-cosigner bridge configuration with both thresholds 1. -/
def wCfg : AppState := { cosigners := [1, 2], threshold_vanilla := 1, threshold_colored := 1 }

/-- A bridge holding one Pending SendBtc operation initiated by cosigner 1,
with cosigner 2 yet to respond. -/
def wState : BridgeState :=
  { operations := [{ idx := 1, opType := .SendBtc, status := .Pending, created_at := 0,
                     initiator_idx := 1 }]
    statuses := [{ idx := 1, cosigner_idx := 1, operation_idx := 1, ack := some true,
                   responded_at := some 0, processed_at := none, psbt_op_file_idx := none },
                 { idx := 2, cosigner_idx := 2, operation_idx := 1, ack := none,
                   responded_at := none, processed_at := none, psbt_op_file_idx := none }]
    opFiles := []
    nextInternal := 0
    nextExternal := 0
    diskFiles := [] }

/-- Cosigner 2's ACK response to operation 1, with a one-byte PSBT. -/
def wParts : List RespondPart :=
  [.requestField (some { operation_idx := 1, ack := true }), .psbtField [7]]

/-- The state committed by cosigner 2's ACK on `wState`. -/
def wResult : BridgeState :=
  match respond_to_operation wCfg wState 2 wParts 0 with
  | .ok s => s
  | _ => initialState

/-- C1 witness: with threshold 1 of 2, cosigner 2's ACK takes operation 1
to the status given by the threshold formula. -/
theorem c1_threshold_status_witness :
    respond_to_operation wCfg wState 2 wParts 0 = .ok wResult ∧
    (getOperationByIdx wResult 1).map Operation.status =
      some (if 1 ≤ ackCountFor wResult 1 then .Approved
        else if wCfg.cosigners.length - 1 < nackCountFor wResult 1 then .Discarded
        else .Pending) := by
  have hok : respond_to_operation wCfg wState 2 wParts 0 = .ok wResult := rfl
  refine ⟨hok, ?_⟩
  have := c1_threshold_status wCfg wState 2 wParts 0 wResult
    { operation_idx := 1, ack := true } (some [7])
    { idx := 1, opType := .SendBtc, status := .Pending, created_at := 0, initiator_idx := 1 }
    1 hok (by decide) (by decide) (by decide) (by decide) (by decide) (by decide)
  simpa using this

/-- C5: an ACK without a PSBT part is rejected with
InvalidRequest("ACK requires PSBT file") before the transaction starts (no
state is committed), while a NACK carrying a PSBT is accepted: the PSBT is
stored as an `op_file` row whose idx becomes the responder's
`psbt_op_file_idx`. -/
theorem c5_ack_psbt_rules (cfg : AppState) (s : BridgeState) (c : Nat)
    (parts : List RespondPart) (t : Int) :
    (∀ req, respondParse parts none none = .ok (some req, none) → req.ack = true →
      respond_to_operation cfg s c parts t =
        .err (.InvalidRequest "ACK requires PSBT file")) ∧
    (∀ req bytes s', respondParse parts none none = .ok (some req, some bytes) →
      req.ack = false →
      respond_to_operation cfg s c parts t = .ok s' →
      s'.opFiles = s.opFiles ++
        [{ idx := s.opFiles.length + 1
           file_id := compute_file_id bytes
           fileType := .Psbt
           operation_idx := req.operation_idx }] ∧
      (getCosignerOpStatusEntry s' c req.operation_idx).map
        CosignerOpStatus.psbt_op_file_idx = some (some (s.opFiles.length + 1))) := by
  constructor
  · intro req hparse hack
    unfold respond_to_operation
    rw [hparse]
    simp [hack]
  · intro req bytes s' hparse hack hok
    obtain ⟨req', psbt?', op', entry, hparse', hcond, hop', hbinit, hpend, hentry,
      hackn, hseq, htxn⟩ := respond_ok_inversion cfg s c parts t s' hok
    rw [hparse] at hparse'
    simp only [Outcome.ok.injEq, Prod.mk.injEq, Option.some.injEq] at hparse'
    obtain ⟨hreqe, hpsbte⟩ := hparse'
    subst hreqe
    subst hpsbte
    unfold respondTxn at htxn
    cases hthr : get_threshold_for_operation op'.opType cfg.threshold_vanilla
        cfg.threshold_colored with
    | none => rw [hthr] at htxn; cases htxn
    | some T =>
        rw [hthr] at htxn
        simp only [Outcome.ok.injEq] at htxn
        subst htxn
        have hidx : op'.idx = req.operation_idx := by
          have := List.find?_some hop'
          simpa using this
        constructor
        · rw [respondCommit_opFiles]
          simp only [hidx]
        · unfold getCosignerOpStatusEntry
          rw [respondCommit_statuses]
          have hpentry := List.find?_some hentry
          rw [find?_updateStatusRow s.statuses entry
            (respondEntry entry req (some bytes) s t) _ hentry rfl hpentry]
          rfl

/-- Cosigner 2's NACK response to operation 1, carrying a one-byte PSBT. -/
def wPartsNack : List RespondPart :=
  [.requestField (some { operation_idx := 1, ack := false }), .psbtField [7]]

/-- The state committed by cosigner 2's NACK-with-PSBT on `wState`. -/
def wResultNack : BridgeState :=
  match respond_to_operation wCfg wState 2 wPartsNack 0 with
  | .ok s => s
  | _ => initialState

/-- C5 witness: an ACK without PSBT is rejected; a NACK with a PSBT commits
the PSBT as op_file 1 referenced by cosigner 2's row. -/
theorem c5_ack_psbt_rules_witness :
    respond_to_operation wCfg wState 2 [.requestField (some { operation_idx := 1, ack := true })] 0 =
      .err (.InvalidRequest "ACK requires PSBT file") ∧
    respond_to_operation wCfg wState 2 wPartsNack 0 = .ok wResultNack ∧
    wResultNack.opFiles = wState.opFiles ++
      [{ idx := 1
         file_id := compute_file_id [7]
         fileType := .Psbt
         operation_idx := 1 }] ∧
    (getCosignerOpStatusEntry wResultNack 2 1).map
      CosignerOpStatus.psbt_op_file_idx = some (some 1) := by
  have h := c5_ack_psbt_rules wCfg wState 2 wPartsNack 0
  have hok : respond_to_operation wCfg wState 2 wPartsNack 0 = .ok wResultNack := rfl
  have hb := h.2 { operation_idx := 1, ack := false } [7] wResultNack rfl rfl hok
  refine ⟨?_, hok, ?_, ?_⟩
  · exact (c5_ack_psbt_rules wCfg wState 2
      [.requestField (some { operation_idx := 1, ack := true })] 0).1
      { operation_idx := 1, ack := true } rfl rfl
  · simpa using hb.1
  · simpa using hb.2

/-! ## The single-Pending invariant -/

/-- Number of Pending operations. -/
def pendingCount (s : BridgeState) : Nat :=
  s.operations.countP (fun op => op.status == OperationStatus.Pending)

theorem storeFiles_fields (files : List (FileType × List Nat)) :
    ∀ (s : BridgeState) (i : Nat),
      (storeFiles s files i).operations = s.operations ∧
      (storeFiles s files i).statuses = s.statuses := by
  induction files with
  | nil => intro s i; exact ⟨rfl, rfl⟩
  | cons f rest ih =>
      intro s i
      obtain ⟨h1, h2⟩ := ih (storeFile s f.2 f.1 i).1 i
      unfold storeFiles
      exact ⟨h1.trans rfl, h2.trans rfl⟩

theorem postTxn_spec (cfg : AppState) (s : BridgeState) (c : Nat)
    (ty : OperationType) (files : List (FileType × List Nat))
    (psbt : Option (List Nat)) (t : Int) :
    (postTxn cfg s c ty files psbt t).2 = s.operations.length + 1 ∧
    (postTxn cfg s c ty files psbt t).1.operations = s.operations ++
      [{ idx := s.operations.length + 1
         opType := ty
         status := (if AUTO_APPROVED_OPS.contains ty then .Approved else .Pending)
         created_at := t
         initiator_idx := c }] ∧
    ∃ pIdx, (postTxn cfg s c ty files psbt t).1.statuses =
      insertStatusRows t (s.operations.length + 1) c pIdx s.statuses cfg.cosigners := by
  unfold postTxn
  obtain ⟨hf1, hf2⟩ := storeFiles_fields files
    { s with operations := s.operations ++
      [{ idx := s.operations.length + 1
         opType := ty
         status := (if AUTO_APPROVED_OPS.contains ty then .Approved else .Pending)
         created_at := t
         initiator_idx := c }] } (s.operations.length + 1)
  cases psbt with
  | none =>
      refine ⟨rfl, by simpa using hf1, none, ?_⟩
      simp only
      rw [hf2]
  | some bytes =>
      refine ⟨rfl, by simpa using hf1,
        some ((storeFiles
          { s with operations := s.operations ++
            [{ idx := s.operations.length + 1
               opType := ty
               status := (if AUTO_APPROVED_OPS.contains ty then .Approved else .Pending)
               created_at := t
               initiator_idx := c }] } files (s.operations.length + 1)).opFiles.length + 1), ?_⟩
      simp only [storeFile]
      rw [hf2]

theorem post_ok_inversion (cfg : AppState) (s : BridgeState) (c : Nat)
    (fields : List (String × List Nat)) (t : Int) (s' : BridgeState) (i : Nat)
    (hok : post_operation cfg s c fields t = .ok (s', i)) :
    hasPendingOperation s = false ∧
    hasUnprocessedOperation s c = false ∧
    ∃ acc ty, postParseFields fields
        { operation_type := none, files := [], psbt_file := none } = .ok acc ∧
      acc.operation_type = some ty ∧
      (s', i) = postTxn cfg s c ty acc.files acc.psbt_file t := by
  unfold post_operation at hok
  cases hp : hasPendingOperation s with
  | true => rw [hp] at hok; simp at hok
  | false =>
      rw [hp] at hok
      simp only [Bool.false_eq_true, if_false] at hok
      cases hu : hasUnprocessedOperation s c with
      | true => rw [hu] at hok; simp at hok
      | false =>
          rw [hu] at hok
          simp only [Bool.false_eq_true, if_false] at hok
          cases hparse : postParseFields fields
              { operation_type := none, files := [], psbt_file := none } with
          | crash m => rw [hparse] at hok; cases hok
          | err e => rw [hparse] at hok; cases hok
          | ok acc =>
              rw [hparse] at hok
              simp only at hok
              cases hempty : (acc.files.isEmpty && acc.psbt_file.isNone) with
              | true => rw [hempty] at hok; simp at hok
              | false =>
                  rw [hempty] at hok
                  simp only [Bool.false_eq_true, if_false] at hok
                  cases hty : acc.operation_type with
                  | none => rw [hty] at hok; cases hok
                  | some ty =>
                      rw [hty] at hok
                      simp only [Outcome.ok.injEq] at hok
                      exact ⟨rfl, rfl, acc, ty, rfl, hty, hok.symm⟩

theorem post_rejects_pending (cfg : AppState) (s : BridgeState)
    (hp : hasPendingOperation s = true) (c : Nat)
    (fields : List (String × List Nat)) (t : Int) :
    post_operation cfg s c fields t =
      .err (.CannotPostNewOperation "another operation is still pending") := by
  unfold post_operation
  rw [hp]
  simp

theorem pendingCount_zero (s : BridgeState) (h : hasPendingOperation s = false) :
    pendingCount s = 0 := by
  unfold pendingCount
  unfold hasPendingOperation at h
  rw [List.countP_eq_zero]
  intro a ha
  rw [List.any_eq_false] at h
  exact fun hcon => h a ha hcon

theorem countP_updateOperationStatus_le (ops : List Operation) (i : Nat)
    (st : OperationStatus) (h : (st == OperationStatus.Pending) = false) :
    (updateOperationStatus ops i st).countP
      (fun op => op.status == OperationStatus.Pending) ≤
      ops.countP (fun op => op.status == OperationStatus.Pending) := by
  induction ops with
  | nil => simp [updateOperationStatus]
  | cons o rest ih =>
      by_cases hb : (o.idx == i) = true
      · simp only [updateOperationStatus, List.map_cons, if_pos hb,
          List.countP_cons] at *
        simp only [h, Bool.false_eq_true, if_false]
        split <;> omega
      · simp only [updateOperationStatus, List.map_cons, if_neg hb,
          List.countP_cons] at *
        omega

theorem mem_updateOperationStatus {op' : Operation} {ops : List Operation}
    {i : Nat} {st : OperationStatus}
    (h : op' ∈ updateOperationStatus ops i st) :
    op' ∈ ops ∨ ∃ o, o ∈ ops ∧ op' = { o with status := st } := by
  unfold updateOperationStatus at h
  rw [List.mem_map] at h
  obtain ⟨o, ho, he⟩ := h
  by_cases hb : (o.idx == i) = true
  · rw [if_pos hb] at he
    exact Or.inr ⟨o, ho, he.symm⟩
  · rw [if_neg hb] at he
    exact Or.inl (he ▸ ho)

theorem respond_ok_operations_cases (cfg : AppState) (s : BridgeState) (c : Nat)
    (parts : List RespondPart) (t : Int) (s' : BridgeState)
    (hok : respond_to_operation cfg s c parts t = .ok s') :
    s'.operations = s.operations ∨
    ∃ i st, (st = OperationStatus.Approved ∨ st = OperationStatus.Discarded) ∧
      s'.operations = updateOperationStatus s.operations i st := by
  obtain ⟨req, psbt?, op, entry, -, -, -, -, -, -, -, -, htxn⟩ :=
    respond_ok_inversion cfg s c parts t s' hok
  unfold respondTxn at htxn
  cases hthr : get_threshold_for_operation op.opType cfg.threshold_vanilla
      cfg.threshold_colored with
  | none => rw [hthr] at htxn; cases htxn
  | some T =>
      rw [hthr] at htxn
      simp only [Outcome.ok.injEq] at htxn
      subst htxn
      rw [respondCommit_operations]
      simp only
      split
      · exact Or.inr ⟨op.idx, .Approved, Or.inl rfl, rfl⟩
      · split
        · exact Or.inr ⟨op.idx, .Discarded, Or.inr rfl, rfl⟩
        · exact Or.inl rfl

theorem mark_ok_spec (s : BridgeState) (c i : Nat) (t : Int) (s' : BridgeState)
    (hok : mark_operation_processed s c i t = .ok s') :
    s'.operations = s.operations ∧
    ∃ op entry, getOperationByIdx s i = some op ∧ op.status ≠ .Pending ∧
      getCosignerOpStatusEntry s c i = some entry ∧ entry.processed_at = none ∧
      s'.statuses = updateStatusRow s.statuses { entry with processed_at := some t } := by
  unfold mark_operation_processed at hok
  cases hop : getOperationByIdx s i with
  | none => rw [hop] at hok; cases hok
  | some op =>
      rw [hop] at hok
      simp only at hok
      cases hpend : (op.status == OperationStatus.Pending) with
      | true => rw [hpend] at hok; simp at hok
      | false =>
          rw [hpend] at hok
          simp only [Bool.false_eq_true, if_false] at hok
          cases hentry : getCosignerOpStatusEntry s c i with
          | none => rw [hentry] at hok; cases hok
          | some entry =>
              rw [hentry] at hok
              simp only at hok
              cases hproc : entry.processed_at.isSome with
              | true => rw [hproc] at hok; simp at hok
              | false =>
                  rw [hproc] at hok
                  simp only [Bool.false_eq_true, if_false, Outcome.ok.injEq] at hok
                  subst hok
                  refine ⟨rfl, op, entry, rfl, ?_, rfl, ?_, rfl⟩
                  · intro hcon
                    rw [hcon] at hpend
                    simp at hpend
                  · exact Option.not_isSome_iff_eq_none.mp
                      (by rw [hproc]; exact Bool.false_ne_true)

theorem bump_ok_spec (s : BridgeState) (count : Nat) (internal : Bool)
    (s' : BridgeState) (first : Nat)
    (hok : bump_address_indices s count internal = .ok (s', first)) :
    s'.operations = s.operations ∧ s'.statuses = s.statuses := by
  rw [bump_spec] at hok
  split_ifs at hok <;>
    first
      | (cases hok
         done)
      | (simp only [Outcome.ok.injEq, Prod.mk.injEq] at hok
         obtain ⟨h1', -⟩ := hok
         subst h1'
         exact ⟨rfl, rfl⟩)

theorem reachable_pending_inv (cfg : AppState) (s : BridgeState)
    (h : Reachable cfg s) :
    pendingCount s ≤ 1 ∧
    ∀ op ∈ s.operations, op.opType ∈ AUTO_APPROVED_OPS → op.status ≠ .Pending := by
  induction h with
  | init =>
      exact ⟨by simp [pendingCount, initialState], by simp [initialState]⟩
  | @step s₀ s₁ hr hs ih =>
      obtain ⟨ih1, ih2⟩ := ih
      cases hs with
      | post c fields t sa sb opIdx hc hok =>
          obtain ⟨hp, hu, acc, ty, hparse, hty, hpt⟩ :=
            post_ok_inversion cfg s₀ c fields t s₁ opIdx hok
          have hfst : s₁ = (postTxn cfg s₀ c ty acc.files acc.psbt_file t).1 :=
            congrArg Prod.fst hpt
          have hs' : s₁.operations = s₀.operations ++
              [{ idx := s₀.operations.length + 1
                 opType := ty
                 status := (if AUTO_APPROVED_OPS.contains ty then .Approved else .Pending)
                 created_at := t
                 initiator_idx := c }] := by
            rw [hfst]
            exact (postTxn_spec cfg s₀ c ty acc.files acc.psbt_file t).2.1
          constructor
          · rw [pendingCount, hs', List.countP_append]
            have h0 : pendingCount s₀ = 0 := pendingCount_zero _ hp
            rw [pendingCount] at h0
            have hle : List.countP (fun op : Operation => op.status == OperationStatus.Pending)
                [{ idx := s₀.operations.length + 1
                   opType := ty
                   status := (if AUTO_APPROVED_OPS.contains ty then .Approved else .Pending)
                   created_at := t
                   initiator_idx := c }] ≤ 1 := by
              simp only [List.countP_cons, List.countP_nil]
              split <;> simp
            omega
          · intro op hmem hauto
            rw [hs'] at hmem
            rcases List.mem_append.mp hmem with hold | hnew
            · exact ih2 op hold hauto
            · have hop : op = { idx := s₀.operations.length + 1
                                opType := ty
                                status := (if AUTO_APPROVED_OPS.contains ty then
                                  OperationStatus.Approved else .Pending)
                                created_at := t
                                initiator_idx := c } := by simpa using hnew
              subst hop
              intro hcon
              simp only at hcon hauto
              by_cases hcontain : AUTO_APPROVED_OPS.contains ty = true
              · rw [if_pos hcontain] at hcon
                cases hcon
              · simp only [List.contains_eq_any_beq] at hcontain
                apply hcontain
                simp only [List.any_eq_true]
                exact ⟨ty, hauto, beq_self_eq_true ty⟩
      | respond c parts t sa sb hc hok =>
          rcases respond_ok_operations_cases cfg s₀ c parts t s₁ hok with
            heq | ⟨i, st, hst, heq⟩
          · constructor
            · rw [pendingCount, heq]
              exact ih1
            · intro op hmem
              rw [heq] at hmem
              exact ih2 op hmem
          · have hstP : (st == OperationStatus.Pending) = false := by
              rcases hst with h | h <;> subst h <;> rfl
            constructor
            · rw [pendingCount, heq]
              calc (updateOperationStatus s₀.operations i st).countP
                    (fun op => op.status == OperationStatus.Pending)
                  ≤ s₀.operations.countP (fun op => op.status == OperationStatus.Pending) :=
                    countP_updateOperationStatus_le _ _ _ hstP
                _ ≤ 1 := ih1
            · intro op hmem hauto
              rw [heq] at hmem
              rcases mem_updateOperationStatus hmem with hold | ⟨o, ho, hoe⟩
              · exact ih2 op hold hauto
              · subst hoe
                intro hcon
                simp only at hcon
                rw [hcon] at hstP
                simp at hstP
      | mark c i t sa sb hc hok =>
          obtain ⟨hops, -⟩ := mark_ok_spec s₀ c i t s₁ hok
          exact ⟨by rw [pendingCount, hops]; exact ih1,
            fun op hm ha => ih2 op (hops ▸ hm) ha⟩
      | bump count internal sa sb first hok =>
          obtain ⟨hops, -⟩ := bump_ok_spec s₀ count internal s₁ first hok
          exact ⟨by rw [pendingCount, hops]; exact ih1,
            fun op hm ha => ih2 op (hops ▸ hm) ha⟩

/-- C3: in every state reachable through the API from a freshly started
bridge, at most one operation is Pending; `post_operation` rejects with
CannotPostNewOperation("another operation is still pending") whenever a
Pending operation exists; and operations of auto-approved types are never
Pending (they are created directly Approved). -/
theorem c3_at_most_one_pending (cfg : AppState) (s : BridgeState)
    (h : Reachable cfg s) :
    pendingCount s ≤ 1 ∧
    (hasPendingOperation s = true → ∀ c fields t, post_operation cfg s c fields t =
      .err (.CannotPostNewOperation "another operation is still pending")) ∧
    (∀ op ∈ s.operations, op.opType ∈ AUTO_APPROVED_OPS → op.status ≠ .Pending) := by
  obtain ⟨h1, h2⟩ := reachable_pending_inv cfg s h
  exact ⟨h1, fun hp c fields t => post_rejects_pending cfg s hp c fields t, h2⟩

/-- The multipart body of a SendBtc post with a one-byte PSBT. -/
def c3PostFields : List (String × List Nat) :=
  [("operation_type", [4]), ("file_psbt", [7])]

/-- The bridge state after cosigner 1 posts a SendBtc operation on a fresh
bridge. -/
def c3State : BridgeState :=
  match post_operation wCfg initialState 1 c3PostFields 0 with
  | .ok p => p.1
  | _ => initialState

/-- C3 witness: the state reached by one post holds one Pending operation
and rejects a second post. -/
theorem c3_at_most_one_pending_witness :
    Reachable wCfg c3State ∧ pendingCount c3State ≤ 1 ∧
    hasPendingOperation c3State = true ∧
    post_operation wCfg c3State 2 c3PostFields 0 =
      .err (.CannotPostNewOperation "another operation is still pending") := by
  have hpost : post_operation wCfg initialState 1 c3PostFields 0 = .ok (c3State, 1) := rfl
  have hreach : Reachable wCfg c3State :=
    Reachable.step Reachable.init
      (Step.post 1 c3PostFields 0 initialState c3State 1 (by decide) hpost)
  have h := c3_at_most_one_pending wCfg c3State hreach
  exact ⟨hreach, h.1, by decide, h.2.1 (by decide) 2 c3PostFields 0⟩

/-! ## Per-cosigner processed-sequence properties -/

/-- The operation indices of a cosigner's rows with `processed_at`
non-null, in row order. -/
def processedIdxs (s : BridgeState) (c : Nat) : List Nat :=
  (s.statuses.filter (fun st => st.cosigner_idx == c &&
    st.processed_at.isSome)).map (fun st => st.operation_idx)

/-- Whether each element of the list is the predecessor's successor. -/
def isContiguous : List Nat → Bool
  | [] => true
  | [_] => true
  | a :: b :: rest => (b == a + 1) && isContiguous (b :: rest)

/-- The rows inserted by `post_operation`'s cosigner loop, starting from
auto-increment base `base`. -/
def buildStatusRows (nowTs : Int) (operation_idx initiator : Nat)
    (psbtIdx : Option Nat) : Nat → List Nat → List CosignerOpStatus
  | _, [] => []
  | base, k :: ks =>
      (let (responded_at, ack, psbt_op_file_idx) :=
        if k == initiator then (some nowTs, some true, psbtIdx)
        else (none, none, none)
       { idx := base + 1
         cosigner_idx := k
         operation_idx := operation_idx
         ack := ack
         responded_at := responded_at
         processed_at := none
         psbt_op_file_idx := psbt_op_file_idx }) ::
      buildStatusRows nowTs operation_idx initiator psbtIdx (base + 1) ks

theorem insertStatusRows_eq (t : Int) (o i : Nat) (p : Option Nat) :
    ∀ (ks : List Nat) (rows : List CosignerOpStatus),
      insertStatusRows t o i p rows ks =
        rows ++ buildStatusRows t o i p rows.length ks := by
  intro ks
  induction ks with
  | nil => intro rows; simp [insertStatusRows, buildStatusRows]
  | cons k ks ih =>
      intro rows
      rw [insertStatusRows, buildStatusRows]
      by_cases hk : (k == i) = true
      · simp only [if_pos hk]
        rw [ih]
        simp [List.length_append]
      · simp only [if_neg hk]
        rw [ih]
        simp [List.length_append]

theorem buildStatusRows_length (t : Int) (o i : Nat) (p : Option Nat) :
    ∀ (ks : List Nat) (base : Nat),
      (buildStatusRows t o i p base ks).length = ks.length := by
  intro ks
  induction ks with
  | nil => intro base; rfl
  | cons k ks ih => intro base; simp [buildStatusRows, ih]

theorem buildStatusRows_idxs (t : Int) (o i : Nat) (p : Option Nat) :
    ∀ (ks : List Nat) (base : Nat),
      (buildStatusRows t o i p base ks).map (fun st => st.idx) =
        List.range' (base + 1) ks.length := by
  intro ks
  induction ks with
  | nil => intro base; rfl
  | cons k ks ih =>
      intro base
      rw [buildStatusRows, List.map_cons, ih]
      rw [List.length_cons, List.range'_succ]

theorem buildStatusRows_mem (t : Int) (o i : Nat) (p : Option Nat) :
    ∀ (ks : List Nat) (base : Nat) (st : CosignerOpStatus),
      st ∈ buildStatusRows t o i p base ks →
      st.operation_idx = o ∧ st.processed_at = none ∧ st.cosigner_idx ∈ ks := by
  intro ks
  induction ks with
  | nil => intro base st h; cases h
  | cons k ks ih =>
      intro base st h
      rw [buildStatusRows] at h
      rcases List.mem_cons.mp h with he | hm
      · subst he
        split <;> exact ⟨rfl, rfl, by simp⟩
      · obtain ⟨h1, h2, h3⟩ := ih (base + 1) st hm
        exact ⟨h1, h2, by simp [h3]⟩

theorem buildStatusRows_filter_length (t : Int) (o i : Nat) (p : Option Nat)
    (c : Nat) :
    ∀ (ks : List Nat) (base : Nat),
      ((buildStatusRows t o i p base ks).filter
        (fun st => st.cosigner_idx == c)).length = ks.count c := by
  intro ks
  induction ks with
  | nil => intro base; rfl
  | cons k ks ih =>
      intro base
      rw [buildStatusRows, List.filter_cons]
      by_cases hk : (k == c) = true
      · have hcond : ((let (responded_at, ack, psbt_op_file_idx) :=
            if k == i then (some t, some true, p) else (none, none, none)
            ({ idx := base + 1
               cosigner_idx := k
               operation_idx := o
               ack := ack
               responded_at := responded_at
               processed_at := none
               psbt_op_file_idx := psbt_op_file_idx } : CosignerOpStatus)).cosigner_idx == c) =
            true := by
          split <;> exact hk
        rw [hcond]
        simp only [if_true, List.length_cons, ih]
        rw [List.count_cons]
        simp [hk]
      · have hcond : ((let (responded_at, ack, psbt_op_file_idx) :=
            if k == i then (some t, some true, p) else (none, none, none)
            ({ idx := base + 1
               cosigner_idx := k
               operation_idx := o
               ack := ack
               responded_at := responded_at
               processed_at := none
               psbt_op_file_idx := psbt_op_file_idx } : CosignerOpStatus)).cosigner_idx == c) =
            false := by
          split <;> simpa using hk
        rw [hcond]
        simp only [Bool.false_eq_true, if_false, ih]
        rw [List.count_cons]
        simp [hk]

theorem updateStatusRow_map_idx (rows : List CosignerOpStatus)
    (r : CosignerOpStatus) :
    (updateStatusRow rows r).map (fun st => st.idx) =
      rows.map (fun st => st.idx) := by
  induction rows with
  | nil => rfl
  | cons x xs ih =>
      simp only [updateStatusRow, List.map_cons] at *
      by_cases hb : (x.idx == r.idx) = true
      · rw [if_pos hb, ih]
        have : r.idx = x.idx := (beq_iff_eq.mp hb).symm
        rw [this]
      · rw [if_neg hb, ih]

theorem updateStatusRow_proj (rows : List CosignerOpStatus)
    (r : CosignerOpStatus) (c : Nat)
    (h : ∀ x ∈ rows, x.idx = r.idx →
      x.cosigner_idx = r.cosigner_idx ∧ x.operation_idx = r.operation_idx) :
    ((updateStatusRow rows r).filter (fun st => st.cosigner_idx == c)).map
      (fun st => st.operation_idx) =
    (rows.filter (fun st => st.cosigner_idx == c)).map
      (fun st => st.operation_idx) := by
  induction rows with
  | nil => rfl
  | cons x xs ih =>
      have ih' := ih (fun y hy hyidx => h y (List.mem_cons_of_mem _ hy) hyidx)
      simp only [updateStatusRow, List.map_cons] at *
      by_cases hb : (x.idx == r.idx) = true
      · obtain ⟨hc', ho'⟩ := h x (List.mem_cons_self _ _) (beq_iff_eq.mp hb)
        rw [if_pos hb, List.filter_cons, List.filter_cons, ← hc']
        by_cases hcc : (x.cosigner_idx == c) = true
        · rw [if_pos hcc, if_pos hcc, List.map_cons, List.map_cons, ih', ← ho']
        · rw [if_neg hcc, if_neg hcc, ih']
      · rw [if_neg hb, List.filter_cons, List.filter_cons]
        by_cases hcc : (x.cosigner_idx == c) = true
        · rw [if_pos hcc, if_pos hcc, List.map_cons, List.map_cons, ih']
        · rw [if_neg hcc, if_neg hcc, ih']

theorem updateStatusRow_mem {x : CosignerOpStatus}
    {rows : List CosignerOpStatus} {r : CosignerOpStatus}
    (h : x ∈ updateStatusRow rows r) : x ∈ rows ∨ x = r := by
  unfold updateStatusRow at h
  rw [List.mem_map] at h
  obtain ⟨y, hy, he⟩ := h
  by_cases hb : (y.idx == r.idx) = true
  · rw [if_pos hb] at he
    exact Or.inr he.symm
  · rw [if_neg hb] at he
    exact Or.inl (he ▸ hy)

theorem updateOperationStatus_length (ops : List Operation) (i : Nat)
    (st : OperationStatus) :
    (updateOperationStatus ops i st).length = ops.length := by
  simp [updateOperationStatus]

theorem nodup_map_inj {l : List CosignerOpStatus}
    (hnd : (l.map (fun st => st.idx)).Nodup) :
    ∀ x ∈ l, ∀ y ∈ l, x.idx = y.idx → x = y := by
  induction l with
  | nil => intro x hx; cases hx
  | cons a as ih =>
      rw [List.map_cons, List.nodup_cons] at hnd
      intro x hx y hy hxy
      rcases List.mem_cons.mp hx with hxe | hxm <;>
        rcases List.mem_cons.mp hy with hye | hym
      · rw [hxe, hye]
      · subst hxe
        exact absurd (List.mem_map.mpr ⟨y, hym, hxy.symm⟩) hnd.1
      · subst hye
        exact absurd (List.mem_map.mpr ⟨x, hxm, hxy⟩) hnd.1
      · exact ih hnd.2 x hxm y hym hxy

theorem pairwise_of_length_le_one {l : List Nat} (h : l.length ≤ 1) :
    List.Pairwise (· < ·) l := by
  match l with
  | [] => exact List.Pairwise.nil
  | [a] => simp
  | a :: b :: _ => simp at h

theorem filter_and_sublist (l : List CosignerOpStatus)
    (p q : CosignerOpStatus → Bool) :
    (l.filter (fun st => p st && q st)).Sublist (l.filter p) := by
  induction l with
  | nil => simp
  | cons x xs ih =>
      rw [List.filter_cons, List.filter_cons]
      by_cases hp : p x = true
      · by_cases hq : q x = true
        · rw [if_pos (by simp [hp, hq]), if_pos hp]
          exact ih.cons₂ x
        · rw [if_neg (by simp [hp, hq]), if_pos hp]
          exact ih.cons x
      · rw [if_neg (by simp [hp]), if_neg hp]
        exact ih

theorem respond_ok_statuses (cfg : AppState) (s : BridgeState) (c : Nat)
    (parts : List RespondPart) (t : Int) (s' : BridgeState)
    (hok : respond_to_operation cfg s c parts t = .ok s') :
    ∃ req psbt? entry,
      getCosignerOpStatusEntry s c
        (RespondToOperationRequest.operation_idx req) = some entry ∧
      s'.statuses = updateStatusRow s.statuses (respondEntry entry req psbt? s t) ∧
      s'.operations.length = s.operations.length := by
  obtain ⟨req, psbt?, op, entry, -, -, -, -, -, hentry, -, -, htxn⟩ :=
    respond_ok_inversion cfg s c parts t s' hok
  unfold respondTxn at htxn
  cases hthr : get_threshold_for_operation op.opType cfg.threshold_vanilla
      cfg.threshold_colored with
  | none => rw [hthr] at htxn; cases htxn
  | some T =>
      rw [hthr] at htxn
      simp only [Outcome.ok.injEq] at htxn
      subst htxn
      refine ⟨req, psbt?, entry, hentry, respondCommit_statuses _ _ _ _ _ _ _ _, ?_⟩
      rw [respondCommit_operations]
      simp only
      split
      · rw [updateOperationStatus_length]
      · split
        · rw [updateOperationStatus_length]
        · rfl

/-- Structural row invariants maintained by every handler: row primary keys
are the auto-increment sequence, every row points at an existing operation,
and each cosigner's rows are in strictly increasing operation order. -/
def RowInv (s : BridgeState) : Prop :=
  s.statuses.map (fun st => st.idx) = List.range' 1 s.statuses.length ∧
  (∀ st ∈ s.statuses, st.operation_idx ≤ s.operations.length) ∧
  (∀ c : Nat, List.Pairwise (· < ·)
    ((s.statuses.filter (fun st => st.cosigner_idx == c)).map
      (fun st => st.operation_idx)))

theorem rowInv_update (s : BridgeState) (inv : RowInv s)
    (entry : CosignerOpStatus) (hmem : entry ∈ s.statuses)
    (r : CosignerOpStatus) (hr1 : r.idx = entry.idx)
    (hr2 : r.cosigner_idx = entry.cosigner_idx)
    (hr3 : r.operation_idx = entry.operation_idx)
    (ops' : List Operation) (hlen : ops'.length = s.operations.length) :
    RowInv { s with statuses := updateStatusRow s.statuses r, operations := ops' } := by
  obtain ⟨inv1, inv2, inv3⟩ := inv
  have hnd : (s.statuses.map (fun st => st.idx)).Nodup := by
    rw [inv1]
    exact List.nodup_range' _ _
  have hpre : ∀ x ∈ s.statuses, x.idx = r.idx →
      x.cosigner_idx = r.cosigner_idx ∧ x.operation_idx = r.operation_idx := by
    intro x hx hxi
    have hxe : x = entry := nodup_map_inj hnd x hx entry hmem (by rw [hxi, hr1])
    subst hxe
    exact ⟨hr2.symm, hr3.symm⟩
  refine ⟨?_, ?_, ?_⟩
  · simp only
    rw [updateStatusRow_map_idx, updateStatusRow_length]
    exact inv1
  · intro st hst
    simp only at hst ⊢
    rw [hlen]
    rcases updateStatusRow_mem hst with hin | he
    · exact inv2 st hin
    · subst he
      rw [hr3]
      exact inv2 entry hmem
  · intro c
    simp only
    rw [updateStatusRow_proj s.statuses r c hpre]
    exact inv3 c

theorem reachable_rowInv (cfg : AppState) (hnd : cfg.cosigners.Nodup)
    (s : BridgeState) (h : Reachable cfg s) : RowInv s := by
  induction h with
  | init => exact ⟨rfl, by simp [initialState], by simp [initialState]⟩
  | @step s₀ s₁ hr hs ih =>
      obtain ⟨ih1, ih2, ih3⟩ := ih
      cases hs with
      | post c fields t sa sb opIdx hc hok =>
          obtain ⟨hp, hu, acc, ty, hparse, hty, hpt⟩ :=
            post_ok_inversion cfg s₀ c fields t s₁ opIdx hok
          have hfst : s₁ = (postTxn cfg s₀ c ty acc.files acc.psbt_file t).1 :=
            congrArg Prod.fst hpt
          obtain ⟨-, hops, pIdx, hsts⟩ :=
            postTxn_spec cfg s₀ c ty acc.files acc.psbt_file t
          rw [← hfst] at hops hsts
          rw [insertStatusRows_eq] at hsts
          have hopslen : s₁.operations.length = s₀.operations.length + 1 := by
            rw [hops]
            simp
          refine ⟨?_, ?_, ?_⟩
          · rw [hsts, List.map_append, ih1, buildStatusRows_idxs,
              List.length_append, buildStatusRows_length]
            have := List.range'_append 1 s₀.statuses.length cfg.cosigners.length 1
            simp only [Nat.one_mul] at this
            rw [Nat.add_comm 1 s₀.statuses.length] at this
            rw [this, Nat.add_comm cfg.cosigners.length s₀.statuses.length]
          · intro st hst
            rw [hsts] at hst
            rw [hopslen]
            rcases List.mem_append.mp hst with hold | hnew
            · exact le_trans (ih2 st hold) (Nat.le_succ _)
            · obtain ⟨h1, -, -⟩ := buildStatusRows_mem t
                (s₀.operations.length + 1) c pIdx cfg.cosigners
                s₀.statuses.length st hnew
              omega
          · intro cx
            rw [hsts, List.filter_append, List.map_append]
            rw [List.pairwise_append]
            refine ⟨ih3 cx, ?_, ?_⟩
            · apply pairwise_of_length_le_one
              rw [List.length_map, buildStatusRows_filter_length]
              exact (List.nodup_iff_count_le_one.mp hnd) cx
            · intro a ha b hb
              rw [List.mem_map] at ha hb
              obtain ⟨sta, hsta, hae⟩ := ha
              obtain ⟨stb, hstb, hbe⟩ := hb
              have h1 : sta.operation_idx ≤ s₀.operations.length :=
                ih2 sta (List.mem_of_mem_filter hsta)
              obtain ⟨h2, -, -⟩ := buildStatusRows_mem t
                (s₀.operations.length + 1) c pIdx cfg.cosigners
                s₀.statuses.length stb (List.mem_of_mem_filter hstb)
              omega
      | respond c parts t sa sb hc hok =>
          obtain ⟨req, psbt?, entry, hentry, hsts, hoplen⟩ :=
            respond_ok_statuses cfg s₀ c parts t s₁ hok
          have hmem : entry ∈ s₀.statuses := List.mem_of_find?_eq_some hentry
          have : RowInv { s₀ with
              statuses := updateStatusRow s₀.statuses (respondEntry entry req psbt? s₀ t)
              operations := s₁.operations } :=
            rowInv_update s₀ ⟨ih1, ih2, ih3⟩ entry hmem
              (respondEntry entry req psbt? s₀ t) rfl rfl rfl s₁.operations hoplen
          obtain ⟨j1, j2, j3⟩ := this
          refine ⟨?_, ?_, ?_⟩
          · rw [hsts]
            exact j1
          · intro st hst
            rw [hsts] at hst
            exact j2 st hst
          · intro cx
            rw [hsts]
            exact j3 cx
      | mark c i t sa sb hc hok =>
          obtain ⟨hops, op, entry, hop, hnp, hentry, hpr, hsts⟩ :=
            mark_ok_spec s₀ c i t s₁ hok
          have hmem : entry ∈ s₀.statuses := List.mem_of_find?_eq_some hentry
          have : RowInv { s₀ with
              statuses := updateStatusRow s₀.statuses { entry with processed_at := some t }
              operations := s₁.operations } :=
            rowInv_update s₀ ⟨ih1, ih2, ih3⟩ entry hmem
              { entry with processed_at := some t } rfl rfl rfl s₁.operations
              (by rw [hops])
          obtain ⟨j1, j2, j3⟩ := this
          refine ⟨?_, ?_, ?_⟩
          · rw [hsts]
            exact j1
          · intro st hst
            rw [hsts] at hst
            exact j2 st hst
          · intro cx
            rw [hsts]
            exact j3 cx
      | bump count internal sa sb first hok =>
          obtain ⟨hops, hsts⟩ := bump_ok_spec s₀ count internal s₁ first hok
          exact ⟨by rw [hsts, ih1], by rw [hsts, hops]; exact ih2,
            by rw [hsts]; exact ih3⟩

/-- A 3-of-4 bridge configuration. -/
def c4Cfg : AppState :=
  { cosigners := [1, 2, 3, 4], threshold_vanilla := 3, threshold_colored := 3 }

/-- The multipart body of an Issuance post with a one-byte data file.
Issuance is auto-approved, so the posted operation is never Pending. -/
def c4Fields : List (String × List Nat) :=
  [("operation_type", [2]), ("file_operation_data", [9])]

/-- After cosigner 1 posts operation 1. -/
def c4s1 : BridgeState :=
  match post_operation c4Cfg initialState 1 c4Fields 0 with
  | .ok p => p.1 | _ => initialState

/-- After cosigner 2 marks operation 1 processed. -/
def c4s2 : BridgeState :=
  match mark_operation_processed c4s1 2 1 0 with
  | .ok s => s | _ => initialState

/-- After cosigner 2 posts operation 2. -/
def c4s3 : BridgeState :=
  match post_operation c4Cfg c4s2 2 c4Fields 0 with
  | .ok p => p.1 | _ => initialState

/-- After cosigner 3 marks operation 1 processed. -/
def c4s4 : BridgeState :=
  match mark_operation_processed c4s3 3 1 0 with
  | .ok s => s | _ => initialState

/-- After cosigner 3 marks operation 2 processed. -/
def c4s5 : BridgeState :=
  match mark_operation_processed c4s4 3 2 0 with
  | .ok s => s | _ => initialState

/-- After cosigner 3 posts operation 3. -/
def c4s6 : BridgeState :=
  match post_operation c4Cfg c4s5 3 c4Fields 0 with
  | .ok p => p.1 | _ => initialState

/-- After cosigner 4 marks operation 1 processed. -/
def c4s7 : BridgeState :=
  match mark_operation_processed c4s6 4 1 0 with
  | .ok s => s | _ => initialState

/-- After cosigner 4 marks operation 3 processed, skipping operation 2. -/
def c4s8 : BridgeState :=
  match mark_operation_processed c4s7 4 3 0 with
  | .ok s => s | _ => initialState

/-- C4 counterexample: a state reachable through the API in which cosigner 4
has processed operations 1 and 3 but not operation 2, so the sequence of
processed operation indices is not contiguous. `mark_operation_processed`
only checks existence, non-Pending status and not-already-processed, with no
sequencing check, so a cosigner may skip an operation. -/
theorem c4_contiguity_counterexample :
    Reachable c4Cfg c4s8 ∧
    processedIdxs c4s8 4 = [1, 3] ∧
    isContiguous (processedIdxs c4s8 4) = false ∧
    (∃ st ∈ c4s8.statuses, st.cosigner_idx = 4 ∧ st.operation_idx = 2 ∧
      st.processed_at = none) := by
  have e1 : post_operation c4Cfg initialState 1 c4Fields 0 = .ok (c4s1, 1) := rfl
  have e2 : mark_operation_processed c4s1 2 1 0 = .ok c4s2 := rfl
  have e3 : post_operation c4Cfg c4s2 2 c4Fields 0 = .ok (c4s3, 2) := rfl
  have e4 : mark_operation_processed c4s3 3 1 0 = .ok c4s4 := rfl
  have e5 : mark_operation_processed c4s4 3 2 0 = .ok c4s5 := rfl
  have e6 : post_operation c4Cfg c4s5 3 c4Fields 0 = .ok (c4s6, 3) := rfl
  have e7 : mark_operation_processed c4s6 4 1 0 = .ok c4s7 := rfl
  have e8 : mark_operation_processed c4s7 4 3 0 = .ok c4s8 := rfl
  have hreach : Reachable c4Cfg c4s8 :=
    Reachable.step (Reachable.step (Reachable.step (Reachable.step
      (Reachable.step (Reachable.step (Reachable.step (Reachable.step
        Reachable.init
        (Step.post 1 c4Fields 0 initialState c4s1 1 (by decide) e1))
        (Step.mark 2 1 0 c4s1 c4s2 (by decide) e2))
        (Step.post 2 c4Fields 0 c4s2 c4s3 2 (by decide) e3))
        (Step.mark 3 1 0 c4s3 c4s4 (by decide) e4))
        (Step.mark 3 2 0 c4s4 c4s5 (by decide) e5))
        (Step.post 3 c4Fields 0 c4s5 c4s6 3 (by decide) e6))
        (Step.mark 4 1 0 c4s6 c4s7 (by decide) e7))
        (Step.mark 4 3 0 c4s7 c4s8 (by decide) e8)
  exact ⟨hreach, by decide, by decide, by decide⟩

/-- C4 (amended): for each cosigner, in every state reachable through the
API, the sequence of operation indices of that cosigner's status rows with
`processed_at` non-null is strictly increasing — but not necessarily
contiguous, since `mark_operation_processed` imposes no sequencing. -/
theorem c4_processed_strictly_increasing (cfg : AppState)
    (hnd : cfg.cosigners.Nodup) (s : BridgeState) (h : Reachable cfg s)
    (c : Nat) : List.Pairwise (· < ·) (processedIdxs s c) := by
  obtain ⟨-, -, inv3⟩ := reachable_rowInv cfg hnd s h
  have hsub := filter_and_sublist s.statuses
    (fun st => st.cosigner_idx == c) (fun st => st.processed_at.isSome)
  have hsub' := List.Sublist.map (fun st : CosignerOpStatus => st.operation_idx) hsub
  exact List.Pairwise.sublist hsub' (inv3 c)

/-- C4 witness: the amended theorem applied at the 3-of-4 configuration and
the freshly started bridge. -/
theorem c4_processed_strictly_increasing_witness :
    c4Cfg.cosigners.Nodup ∧
    List.Pairwise (· < ·) (processedIdxs initialState 1) :=
  ⟨by decide,
   c4_processed_strictly_increasing c4Cfg (by decide) initialState
     Reachable.init 1⟩

end RgbBridge
